import Mathlib

/-!
# Animal Kingdom Idle: the economy engine of `core.js` and the rate override of `ui.js`

JavaScript numbers are modelled as rationals (`ℚ`), integer-valued numbers
(unit counts, quantities) as `ℤ`.  Sums, products and integer powers are taken
exactly.  Rounding to the nearest double is modelled where a floor or a printed
digit depends on it: the division and `Math.sqrt` of `prestigeGain`
(`roundDouble`, `sqrtDouble`; the lemmas `roundDouble_nearest` and
`sqrtDouble_nearest` relate them to the exact values), and the decimal string that
`parseInt` reads.  `Math.log` is left to the library by the language, so the model of
`maxAffordable` takes the quotient of logarithms exactly (`logFloor_eq_floor_log`), and
`closedFormQty` traces the rounded quotient from the doubles the library returns.
The burst test compares with the real-valued probability (`burstFires_iff`).  Where
the JavaScript computation leaves the finite numbers (`NaN`, `Infinity`) a definition
returns `none`.
-/

namespace AKI

/-! ## Data model -/

/-- One entry of `state.units`: `{ count, base, m, prod }`. -/
structure UnitRec where
  count : ℤ
  base : ℚ
  m : ℚ
  prod : ℚ
  deriving DecidableEq, Repr

/-- The five keys of `G.roster`. -/
inductive UnitKey where
  | monkey
  | zebra
  | gorilla
  | elephant
  | parrot
  deriving DecidableEq, Repr

/-- The object `state.units` of a running game: one record per roster key. -/
structure Units where
  monkey : UnitRec
  zebra : UnitRec
  gorilla : UnitRec
  elephant : UnitRec
  parrot : UnitRec
  deriving DecidableEq, Repr

/-- The lookup `s.units[key]`. -/
def Units.get (u : Units) : UnitKey → UnitRec
  | .monkey => u.monkey
  | .zebra => u.zebra
  | .gorilla => u.gorilla
  | .elephant => u.elephant
  | .parrot => u.parrot

/-- Replacing the record stored under `key` (the effect of a write through `s.units[key]`). -/
def Units.set (u : Units) (key : UnitKey) (r : UnitRec) : Units :=
  match key with
  | .monkey => { u with monkey := r }
  | .zebra => { u with zebra := r }
  | .gorilla => { u with gorilla := r }
  | .elephant => { u with elephant := r }
  | .parrot => { u with parrot := r }

/-- The property name under which a roster key is stored. -/
def UnitKey.name : UnitKey → String
  | .monkey => "monkey"
  | .zebra => "zebra"
  | .gorilla => "gorilla"
  | .elephant => "elephant"
  | .parrot => "parrot"

/-- The save-shaped game state, parametrised by the shape of its `units` field:
`State` for a running game, `Loaded` for what `JSON.parse` hands to `init`.
`upgrades` lists the ids whose flag is set; `parrotTimer` is the field
`_parrotTimer`, absent until the first tick; `econ130` is the truthiness of the
migration marker. -/
structure GState (U : Type) where
  food : ℚ
  relics : ℚ
  totalProduced : ℚ
  units : U
  upgrades : List String
  lastSave : ℚ
  lastTick : ℚ
  offlineCapMins : ℚ
  speedMult : ℚ
  milestone : List (String × ℚ)
  econ130 : Bool
  parrotTimer : Option ℚ
  deriving DecidableEq, Repr

/-- The state of a running game. -/
abbrev State := GState Units

/-- The five rows of `G.roster`: `(base, prod, m)` per key. -/
def roster : UnitKey → UnitRec
  | .monkey => { count := 0, base := 1, m := 13 / 10, prod := 1 }
  | .zebra => { count := 0, base := 50000, m := 13 / 10, prod := 10 }
  | .gorilla => { count := 0, base := 50000000, m := 13 / 10, prod := 25 }
  | .elephant => { count := 0, base := 50000000000, m := 13 / 10, prod := 120 }
  | .parrot => { count := 0, base := 50000000000000, m := 13 / 10, prod := 1 / 2 }

/-- The factory `freshState()`; `nowSave` and `nowTick` are the values of its two
calls of `G.now()`. -/
def freshState (nowSave nowTick : ℚ) : State :=
  { food := 0
    relics := 0
    totalProduced := 0
    units :=
      { monkey := { roster .monkey with count := 1 }
        zebra := roster .zebra
        gorilla := roster .gorilla
        elephant := roster .elephant
        parrot := roster .parrot }
    upgrades := []
    lastSave := nowSave
    lastTick := nowTick
    offlineCapMins := 60
    speedMult := 1
    milestone := []
    econ130 := true
    parrotTimer := none }

/-! ## Double-precision rounding

The results of `/` and `Math.sqrt` are the doubles nearest to the exact values (IEEE 754,
round to nearest, ties to even); they are modelled where the engine takes a floor of
them or prints them. -/

/-- Rounding of a rational to the nearest integer, a tie going to the even one. -/
def roundHalfEven (y : ℚ) : ℤ :=
  let f := ⌊y⌋
  if y - f < 1 / 2 then f
  else if 1 / 2 < y - f then f + 1
  else if f % 2 = 0 then f
  else f + 1

/-- The binary exponent of the last place of a non-zero `x` written with 53
significant bits: `floor(log2 |x|) - 52`. -/
def ulpExp (x : ℚ) : ℤ :=
  Int.log 2 |x| - 52

/-- The double nearest to the exact value `x` (round to nearest, ties to even, 53
significant bits).  The exponent range is not bounded: overflow to `Infinity` and
gradual underflow are not modelled. -/
def roundDouble (x : ℚ) : ℚ :=
  if x = 0 then 0 else (roundHalfEven (x / 2 ^ ulpExp x) : ℚ) * 2 ^ ulpExp x

/-- The value of `Math.sqrt(y)` on a non-negative `y`: the double nearest to the real
square root. -/
def sqrtDouble (y : ℚ) : ℚ :=
  if y ≤ 0 then 0
  else
    let u : ℤ := Int.log 2 y / 2 - 52
    let z : ℚ := y / 2 ^ (2 * u)
    let k : ℕ := Nat.sqrt ⌊z⌋₊
    let mid : ℚ := (k : ℚ) ^ 2 + k + 1 / 4
    let n : ℕ :=
      if z < mid then k
      else if mid < z then k + 1
      else if k % 2 = 0 then k
      else k + 1
    (n : ℚ) * 2 ^ u

/-! ## Pricing -/

/-- The leading decimal digit of a natural number (`0` for `0`). -/
def leadingDigit (n : ℕ) : ℕ :=
  (Nat.digits 10 n).getLastD 0

/-- The decimal with `k` significant digits that prints the integer-valued double `d`
of `len` decimal digits, when there is one: a multiple of `10 ^ (len - k)` that
rounds to `d`, the one nearer to `d` when two do. -/
def decimalCandidate (d len k : ℕ) : Option ℕ :=
  let scale := 10 ^ (len - k)
  let lo := d / scale * scale
  let hi := lo + scale
  if roundDouble lo = d then
    if roundDouble hi = d then
      if d - lo < hi - d then some lo
      else if hi - d < d - lo then some hi
      else if d / scale % 2 = 0 then some lo
      else some hi
    else some lo
  else if roundDouble hi = d then some hi
  else none

/-- The search for the least number of significant digits, from `k` digits on. -/
def shortestFrom (d len : ℕ) : ℕ → ℕ → ℕ
  | 0, _ => d
  | fuel + 1, k =>
    match decimalCandidate d len k with
    | some c => c
    | none => shortestFrom d len fuel (k + 1)

/-- The decimal that `String(d)` prints for an integer-valued double `d`: the shortest
one that reads back as `d` (seventeen significant digits always do). -/
def shortestDecimal (d : ℕ) : ℕ :=
  shortestFrom d (Nat.digits 10 d).length 17 1

/-- The call `parseInt(q, 10)` on an integer-valued number: the number itself while its
decimal string is plain digits (below `1e21`); from `1e21` on the string is in
exponent form (`"1e+21"`, `"2.5e+21"`) and only the leading digit of the shortest
decimal that reads back as the double is read.  The result `0` also stands for the
`NaN` of `parseInt("Infinity")`, which `||` treats like `0`. -/
def parseInt (q : ℤ) : ℤ :=
  if q.natAbs < 10 ^ 21 then q
  else
    let d : ℕ := ⌊roundDouble (q.natAbs : ℚ)⌋₊
    if 2 ^ 1024 ≤ d then 0 else q.sign * (leadingDigit (shortestDecimal d) : ℕ)

/-- The pricing function `costOf(key, have, qty, base, m)`. -/
def costOf (_key : String) (have_ : ℤ) (qty : ℤ) (base m : ℚ) : ℚ :=
  let a : ℚ := if m = 0 then 13 / 10 else m
  let q : ℤ := if parseInt qty = 0 then 1 else parseInt qty
  let first := base * a ^ have_
  if a = 1 then first * q else first * (a ^ q - 1) / (a - 1)

/-- The price of `qty` successive units in the spec's words: unit number `i`
(counting from `0`) costs `base * growth ^ (have + i)`. -/
def sumPrice (have_ : ℤ) (qty : ℕ) (base growth : ℚ) : ℚ :=
  ∑ i in Finset.range qty, base * growth ^ (have_ + (i : ℤ))

/-- The coercion `q|0` on an integer-valued number (ECMAScript `ToInt32`): reduce
modulo `2^32` into the signed 32-bit range. -/
def toInt32 (n : ℤ) : ℤ :=
  let r := n % 4294967296
  if 2147483648 ≤ r then r - 4294967296 else r

/-- The integer `k` with `b ^ k ≤ y < b ^ (k + 1)`, for `1 < b` and `0 < y`: found
by bounded search, the bound coming from `1 + k * (b - 1) ≤ b ^ k`. -/
def floorLogGt (b y : ℚ) : ℤ :=
  if 1 ≤ y then
    (Nat.findGreatest (fun k => b ^ k ≤ y) ⌈y / (b - 1)⌉₊ : ℕ)
  else
    -(((Nat.findGreatest (fun k => b ^ k < 1 / y) ⌈1 / y / (b - 1)⌉₊ : ℕ) : ℤ) + 1)

/-- The floor of the exact quotient `log(x) / log(a)`, or `none` when that
quotient is `NaN` or infinite (`a < 0`, `a = 1`, `x ≤ 0`).  For `0 < a < 1` the
quotient is `log(1/x) / log(1/a)`; for `a = 0` the divisor is `-Infinity` and the
quotient a zero.  This is `Math.floor(Math.log(x) / Math.log(a))` with the logarithms
and their quotient taken without rounding: the doubles that `Math.log` returns and
the rounded quotient can fall just below an integer that the exact quotient reaches
(`a = 10`, `x = 1000` gives `2` in the engine and `3` here; see `closedFormQty`). -/
def logFloor (a x : ℚ) : Option ℤ :=
  if 0 < x then
    if 1 < a then some (floorLogGt a x)
    else if a = 1 then none
    else if 0 < a then some (floorLogGt (1 / a) (1 / x))
    else if a = 0 then some 0
    else none
  else none

/-- The inverse pricing function `maxAffordable(key, have, base, m, food)`.
`none`: the `a === 1` branch divides by a zero `head` and returns `Infinity` or
`NaN`.  In the other branch a `NaN` or infinite `q` becomes `0` under `q|0`.
The quotient of logarithms is the exact one of `logFloor`; its rounding in doubles
is traced by `closedFormQty`. -/
def maxAffordable (_key : String) (have_ : ℤ) (base m food : ℚ) : Option ℤ :=
  let a : ℚ := if m = 0 then 13 / 10 else m
  let head := base * a ^ have_
  if food < head then some 0
  else if a = 1 then
    if head = 0 then none else some ⌊food / head⌋
  else if head = 0 then some 0
  else
    match logFloor a (food * (a - 1) / head + 1) with
    | none => some 0
    | some q => some (max 0 (toInt32 q))

/-- The last two lines of `maxAffordable` in doubles, `lx` and `la` being the doubles
that `Math.log` returns for the argument and for the growth factor:
`q = Math.floor(lx / la)` with the quotient rounded to a double, then
`Math.max(0, q|0)`. -/
def closedFormQty (lx la : ℚ) : ℤ :=
  let q : ℤ := ⌊roundDouble (lx / la)⌋
  max 0 (toInt32 q)

/-! ## Production -/

/-- The tier multiplier `milestoneMult(count)`: `2 ^ floor(count / 25)`. -/
def milestoneMult (count : ℤ) : ℚ :=
  let tiers : ℤ := count / 25
  (2 : ℚ) ^ tiers

/-- The rate function `computeFPS(s)` of `core.js`: the rate, and the state with
the cached `speedMult` refreshed. -/
def computeFPS (s : State) : ℚ × State :=
  let monkeys : ℤ := s.units.monkey.count
  let zebras : ℤ := s.units.zebra.count
  let gor : ℤ := s.units.gorilla.count
  let ele : ℤ := s.units.elephant.count
  let par : ℤ := s.units.parrot.count
  let synergyMonk : ℚ := 1 + 5 / 1000 * zebras
  let gorBuff : ℚ := 1 + 1 / 100 * gor
  let mFPS := monkeys * s.units.monkey.prod * milestoneMult monkeys * synergyMonk * gorBuff
  let zFPS := zebras * s.units.zebra.prod * milestoneMult zebras * gorBuff
  let gFPS := gor * s.units.gorilla.prod * milestoneMult gor
  let eFPS := ele * s.units.elephant.prod * milestoneMult ele
  let pFPS := par * s.units.parrot.prod * milestoneMult par
  let base := mFPS + zFPS + gFPS + eFPS + pFPS
  let speed : ℚ := 1 + 1 / 10 * par
  (base * speed * (1 + 1 / 100 * s.relics), { s with speedMult := speed })

/-- The replacement that `ui.js` installs as `AKI.computeFPS`: it calls the
original (which refreshes `speedMult`) and returns the rate recomputed with the
purchased upgrades applied. -/
def uiComputeFPS (s : State) : ℚ × State :=
  let s1 := (computeFPS s).2
  let monkMult : ℚ := if "upg_monk_x2" ∈ s1.upgrades then 2 else 1
  let zebMult : ℚ := if "upg_zeb_x2" ∈ s1.upgrades then 2 else 1
  let speedAdd : ℚ := if "upg_speed_20" ∈ s1.upgrades then 1 / 5 else 0
  let mm : ℤ → ℚ := fun c => (2 : ℚ) ^ (c / 25)
  let gorBuff : ℚ := 1 + 1 / 100 * s1.units.gorilla.count
  let monk : ℤ := s1.units.monkey.count
  let zebra : ℤ := s1.units.zebra.count
  let monkeysFPS := monk * s1.units.monkey.prod * mm monk * (1 + 5 / 1000 * zebra) * gorBuff
    * monkMult
  let zebrasFPS := zebra * s1.units.zebra.prod * mm zebra * gorBuff * zebMult
  let gorFPS := s1.units.gorilla.count * s1.units.gorilla.prod * mm s1.units.gorilla.count
  let eleFPS := s1.units.elephant.count * s1.units.elephant.prod * mm s1.units.elephant.count
  let parFPS := s1.units.parrot.count * s1.units.parrot.prod * mm s1.units.parrot.count
  let base := monkeysFPS + zebrasFPS + gorFPS + eleFPS + parFPS
  let speed : ℚ := 1 + 1 / 10 * s1.units.parrot.count + speedAdd
  (base * speed * (1 + 1 / 100 * s1.relics), s1)

/-- The test `Math.random() < p` of a burst, `p = 1 - Math.pow(1 - 0.10, dt / 60)`
and `r` the random draw, decided exactly: for `r < 1` both sides of
`0.9 ^ (dt / 60) < 1 - r` are positive, and raising them to the power
`60 * dt.den` leaves integer powers of rationals. -/
def burstFires (dt r : ℚ) : Bool :=
  decide (r < 1 ∧ (9 / 10 : ℚ) ^ dt.num < (1 - r) ^ (60 * dt.den))

/-- One pass of the burst loop body of `tick`: draw number `i` decides whether
`burstAmt` is added to `food` and `totalProduced`. -/
def burstStep (dt burstAmt : ℚ) (rand : ℕ → ℚ) (s : State) (i : ℕ) : State :=
  if burstFires dt (rand i) then
    { s with food := s.food + burstAmt, totalProduced := s.totalProduced + burstAmt }
  else s

/-- The tick driver `tick(s, dt)`; `rand i` is the value of the `i`-th call of
`Math.random()` in this tick. -/
def tick (s : State) (dt : ℚ) (rand : ℕ → ℚ) : State :=
  let (fps, s1) := computeFPS s
  let gain := fps * dt
  let s2 : State := { s1 with food := s1.food + gain, totalProduced := s1.totalProduced + gain }
  let elephants : ℤ := s2.units.elephant.count
  let s3 : State :=
    if 0 < elephants then
      let burstAmt := s2.units.elephant.prod * 10
      (List.range elephants.toNat).foldl (burstStep dt burstAmt rand) s2
    else s2
  let parrots : ℤ := s3.units.parrot.count
  let timer : ℚ := s3.parrotTimer.getD 0 + dt
  let s4 : State := { s3 with parrotTimer := some timer }
  let interval : ℚ := 300
  if 0 < parrots ∧ interval ≤ timer then
    let (fps5, s5) := computeFPS s4
    let hourly := fps5 * 3600
    let bonus := parrots * (5 / 100 * hourly)
    { s5 with
      food := s5.food + bonus
      totalProduced := s5.totalProduced + bonus
      parrotTimer := some 0 }
  else s4

/-! ## Prestige and offline catch-up -/

/-- The value of `Math.floor(Math.sqrt(x))` on a double `x`, the square root rounded
as `Math.sqrt` rounds it; `none` is the `NaN` of a negative `x`. -/
def floorSqrt (x : ℚ) : Option ℤ :=
  if x < 0 then none else some ⌊sqrtDouble x⌋

/-- The reward function `prestigeGain(s)`: the quotient `s.totalProduced / 1e12` is
rounded to a double before `Math.sqrt` sees it. -/
def prestigeGain (s : State) : Option ℤ :=
  floorSqrt (roundDouble (s.totalProduced / 1000000000000))

/-- The function `reset()`: the global state becomes a fresh state. -/
def reset (nowSave nowTick : ℚ) : State :=
  freshState nowSave nowTick

/-- The soft reset `doPrestige()` on the global state `s`: the returned gain and
the new global state; `none` when the gain is `NaN`. -/
def doPrestige (s : State) (nowSave nowTick : ℚ) : Option (ℤ × State) :=
  match prestigeGain s with
  | none => none
  | some gain =>
    let relics := s.relics + gain
    some (gain, { reset nowSave nowTick with relics := relics })

/-- The catch-up `applyOffline(s, prevTime)`, `now` the value of `G.now()`: the
granted amount and the state after the grant. -/
def applyOffline (s : State) (now prevTime : ℚ) : ℚ × State :=
  if prevTime = 0 then (0, s)
  else
    let elapsed : ℤ := max 0 ⌊(now - prevTime) / 1000⌋
    let capMins : ℚ := s.offlineCapMins + 30 * s.units.elephant.count
    let capped : ℚ := min (elapsed : ℚ) (capMins * 60)
    let (fps, s1) := computeFPS s
    let gained := fps * capped
    (gained, { s1 with food := s1.food + gained, totalProduced := s1.totalProduced + gained })

/-! ## Loading: the economy migration of `init` -/

/-- A unit record as a save may hold it: any of its properties may be missing. -/
structure LoadedUnit where
  count : Option ℤ
  base : Option ℚ
  m : Option ℚ
  prod : Option ℚ
  deriving DecidableEq, Repr

/-- The `units` object of a save: any of the five records may be missing. -/
structure LoadedUnits where
  monkey : Option LoadedUnit
  zebra : Option LoadedUnit
  gorilla : Option LoadedUnit
  elephant : Option LoadedUnit
  parrot : Option LoadedUnit
  deriving DecidableEq, Repr

/-- The lookup `u[key]` in the `units` object of a save. -/
def LoadedUnits.get (u : LoadedUnits) : UnitKey → Option LoadedUnit
  | .monkey => u.monkey
  | .zebra => u.zebra
  | .gorilla => u.gorilla
  | .elephant => u.elephant
  | .parrot => u.parrot

/-- What `load()` returns when a save parses: a state whose `units` object may be
missing. -/
abbrev Loaded := GState (Option LoadedUnits)

/-- One line of the migration, `if (u.k){ u.k.base = ..; u.k.m = 1.30; u.k.prod = ..; }`:
a record that is present gets the three constants of its roster row. -/
def rewriteUnit (key : UnitKey) (r : Option LoadedUnit) : Option LoadedUnit :=
  match r with
  | none => none
  | some u =>
    some { u with
      base := some (roster key).base
      m := some (roster key).m
      prod := some (roster key).prod }

/-- The economy migration block of `API.init`, run on the loaded state. -/
def migrateEconomy (s : Loaded) : Loaded :=
  if !s.econ130 then
    { s with
      units := s.units.map fun u =>
        { monkey := rewriteUnit .monkey u.monkey
          zebra := rewriteUnit .zebra u.zebra
          gorilla := rewriteUnit .gorilla u.gorilla
          elephant := rewriteUnit .elephant u.elephant
          parrot := rewriteUnit .parrot u.parrot }
      econ130 := true }
  else s

/-! ## Purchases -/

/-- The quantity `buy` resolves `mode` to: `10`, `100`, the result of
`maxAffordable` for `'max'`, and `1` for any other mode. -/
def resolveQty (s : State) (key : UnitKey) (mode : String) : Option ℤ :=
  let u := s.units.get key
  if mode = "10" then some 10
  else if mode = "100" then some 100
  else if mode = "max" then maxAffordable key.name u.count u.base u.m s.food
  else some 1

/-- The purchase `API.buy(key, mode)` on the global state `s`: the returned flag
and the state afterwards; `none` when the resolved quantity is not a finite
number. -/
def buy (s : State) (key : UnitKey) (mode : String) : Option (Bool × State) :=
  let u := s.units.get key
  let have_ := u.count
  let base := u.base
  let m := u.m
  match resolveQty s key mode with
  | none => none
  | some qty =>
    let price := costOf key.name have_ qty base m
    let finalQty := qty
    if finalQty ≤ 0 ∨ s.food < price then some (false, s)
    else
      some (true,
        { s with
          food := s.food - price
          units := s.units.set key { u with count := u.count + finalQty } })

/-! ## Loading: the zero-animal repair of `init` -/

/-- The summand `(u?.count||0)` of the repair's total: the count of a record that is
present and has one, `0` otherwise. -/
def ownedCount (r : Option LoadedUnit) : ℤ :=
  match r with
  | none => 0
  | some u => u.count.getD 0

/-- The total `Object.values(G.state.units||{}).reduce((a,u)=>a+(u?.count||0),0)`, the
values being the records under the five roster keys, in the order `freshState`
writes them. -/
def totalOwned (units : Option LoadedUnits) : ℤ :=
  match units with
  | none => 0
  | some u =>
    0 + ownedCount u.monkey + ownedCount u.zebra + ownedCount u.gorilla
      + ownedCount u.elephant + ownedCount u.parrot

/-- The zero-animal repair block of `API.init`, run on the loaded state after the
migration. -/
def repairAnimals (s : Loaded) : Loaded :=
  let total := totalOwned s.units
  if total = 0 then
    match s.units with
    | none => s
    | some u =>
      match u.monkey with
      | none => s
      | some m =>
        { s with units := some { u with monkey := some { m with count := some 1 } } }
  else s

/-! ## Upgrade purchases (the click handler of `ui.js`) -/

/-- The property names every object inherits from `Object.prototype`: looked up in
the handler's cost table they give a function or an object, never a number. -/
def inheritedNames : List String :=
  ["constructor", "toString", "toLocaleString", "valueOf", "hasOwnProperty",
    "isPrototypeOf", "propertyIsEnumerable", "__proto__", "__defineGetter__",
    "__defineSetter__", "__lookupGetter__", "__lookupSetter__"]

/-- The cost `defs[id] || 0` of the handler; `none` when the lookup gives an inherited
value, which is no number and against which `food >= cost` is false. -/
def upgradeCost (id : String) : Option ℚ :=
  if id = "upg_monk_x2" then some 10000
  else if id = "upg_zeb_x2" then some 100000000
  else if id = "upg_speed_20" then some 10000000
  else if id ∈ inheritedNames then none
  else some 0

/-- The upgrade branch of the click handler of `ui.js` for a clicked element whose
`data-upg` attribute is `id`, on the global state `s`; an empty `id` does not enter
the branch. -/
def purchaseUpgrade (s : State) (id : String) : State :=
  if id = "" then s
  else
    match upgradeCost id with
    | none => s
    | some cost =>
      if cost ≤ s.food then
        { s with
          food := s.food - cost
          upgrades := if id ∈ s.upgrades then s.upgrades else s.upgrades ++ [id] }
      else s

/-! ## The quantities of the offline catch-up, in the spec's words -/

/-- The spec's `elapsedSec = max(0, floor((now - lastTickAt) / 1000))`. -/
def elapsedSec (now prevTime : ℚ) : ℤ :=
  max 0 ⌊(now - prevTime) / 1000⌋

/-- The spec's `capSeconds = (offlineCapMinutesBase + 30 × elephant count) × 60`. -/
def capSeconds (s : State) : ℚ :=
  (s.offlineCapMins + 30 * (s.units.elephant.count : ℚ)) * 60

/-! ## Concrete inputs used below -/

/-- The growth factor `1 + 2^-22` (a double), small enough for more than `2^31`
units to be affordable within the range of doubles. -/
def tinyGrowth : ℚ := 1 + 1 / ((4194304 : ℕ) : ℚ)

/-- A fresh game that has produced ten food. -/
def tenFoodState : State :=
  { freshState 0 0 with food := 10 }

/-- A game with 25 monkeys in which the upgrade `upg_monk_x2` has been purchased. -/
def upgradedState : State :=
  { freshState 0 0 with
    units := { (freshState 0 0).units with monkey := { roster .monkey with count := 25 } }
    upgrades := ["upg_monk_x2"] }

/-- A game without parrots whose cache timer stands half a second short of the
interval of 300 seconds. -/
def noParrotState : State :=
  { freshState 0 0 with parrotTimer := some (599 / 2) }

/-- A game with three relics that has produced `4e12` food. -/
def richState : State :=
  { freshState 0 0 with relics := 3, totalProduced := 4000000000000 }

/-- A game with one parrot whose cache timer stands half a second short of the
interval of 300 seconds. -/
def parrotState : State :=
  { freshState 0 0 with
    units := { (freshState 0 0).units with parrot := { roster .parrot with count := 1 } }
    parrotTimer := some (599 / 2) }

/-- A state that owns no unit at all. -/
def emptyState : State :=
  { freshState 0 0 with
    units := { (freshState 0 0).units with monkey := roster .monkey } }

/-- A save that already carries the marker `econ130` but whose monkey record
holds `base: 2`. -/
def flaggedSave : Loaded :=
  { food := 0
    relics := 0
    totalProduced := 0
    units := some
      { monkey := some { count := some 1, base := some 2, m := some (13 / 10), prod := some 1 }
        zebra := none
        gorilla := none
        elephant := none
        parrot := none }
    upgrades := []
    lastSave := 0
    lastTick := 0
    offlineCapMins := 60
    speedMult := 1
    milestone := []
    econ130 := true
    parrotTimer := none }

/-- A save from before the economy change: no marker, old constants. -/
def oldSave : Loaded :=
  { flaggedSave with econ130 := false }

/-- A save whose `units` object has no monkey record and whose only record owns
nothing. -/
def noMonkeySave : Loaded :=
  { flaggedSave with
    units := some
      { monkey := none
        zebra := some
          { count := some 0, base := some 50000, m := some (13 / 10), prod := some 10 }
        gorilla := none
        elephant := none
        parrot := none } }

/-- A save that owns no animal: its monkey record has count `0`. -/
def zeroSave : Loaded :=
  { flaggedSave with
    units := some
      { monkey := some { count := some 0, base := some 1, m := some (13 / 10), prod := some 1 }
        zebra := none
        gorilla := none
        elephant := none
        parrot := none } }

/-- A save with one monkey and a zebra record whose count is `-1`. -/
def negativeCountSave : Loaded :=
  { flaggedSave with
    units := some
      { monkey := some { count := some 1, base := some 1, m := some (13 / 10), prod := some 1 }
        zebra := some
          { count := some (-1), base := some 50000, m := some (13 / 10), prod := some 10 }
        gorilla := none
        elephant := none
        parrot := none } }

/-- A fresh game whose `offlineCapMins` is `-60`. -/
def negativeCapState : State :=
  { freshState 0 0 with offlineCapMins := -60 }

/-- A fresh state that has produced `24999999999999.996` in total, the double just
below `25e12` (`25e12 - 2^-8`). -/
def nearSquareState : State :=
  { freshState 0 0 with totalProduced := 6399999999999999 / 256 }

/-- The double that `Math.log(1000)` returns, `6.907755278982137`. -/
def log1000Double : ℚ := 243045032034301 / 35184372088832

/-- The double that `Math.log(10)` returns, `2.302585092994046`. -/
def log10Double : ℚ := 2592480341699211 / 1125899906842624

/-! ## Double-precision rounding: the nearest double -/

theorem roundHalfEven_ge (y : ℚ) : ⌊y⌋ ≤ roundHalfEven y := by
  unfold roundHalfEven
  simp only
  split_ifs <;> omega

theorem roundHalfEven_le (y : ℚ) : roundHalfEven y ≤ ⌊y⌋ + 1 := by
  unfold roundHalfEven
  simp only
  split_ifs <;> omega

theorem two_pow_le_div_ulp (x : ℚ) (hx : 0 < x) : (2 : ℚ) ^ (52 : ℕ) ≤ x / 2 ^ ulpExp x := by
  unfold ulpExp
  rw [abs_of_pos hx]
  have h := Int.zpow_log_le_self (b := 2) (by norm_num) hx
  have h2 : (0 : ℚ) < 2 ^ (Int.log 2 x - 52) := by positivity
  rw [le_div_iff₀ h2]
  have : (2 : ℚ) ^ (52 : ℕ) * 2 ^ (Int.log 2 x - 52) = 2 ^ (Int.log 2 x) := by
    rw [← zpow_natCast, ← zpow_add₀ (by norm_num)]
    congr 1
    push_cast
    ring
  rw [this]
  exact_mod_cast h

theorem roundDouble_neg_iff (x : ℚ) : roundDouble x < 0 ↔ x < 0 := by
  unfold roundDouble
  by_cases h0 : x = 0
  · simp [h0]
  rw [if_neg h0]
  have hp : (0 : ℚ) < 2 ^ ulpExp x := by positivity
  rcases lt_or_gt_of_ne h0 with hneg | hpos
  · have hu : ulpExp x = ulpExp (-x) := by unfold ulpExp; rw [abs_neg]
    have h52 := two_pow_le_div_ulp (-x) (by linarith)
    rw [← hu, neg_div] at h52
    have hy : x / 2 ^ ulpExp x ≤ -(2 ^ (52 : ℕ)) := by linarith
    have hfl : ⌊x / 2 ^ ulpExp x⌋ ≤ -(2 ^ (52 : ℕ)) := by
      have := Int.floor_le (x / 2 ^ ulpExp x)
      have h3 : ((⌊x / 2 ^ ulpExp x⌋ : ℤ) : ℚ) ≤ ((-(2 ^ (52 : ℕ)) : ℤ) : ℚ) := by
        push_cast; linarith
      exact_mod_cast h3
    have hr := roundHalfEven_le (x / 2 ^ ulpExp x)
    have hneg2 : roundHalfEven (x / 2 ^ ulpExp x) < 0 := by
      have : (-(2 ^ (52 : ℕ)) : ℤ) + 1 < 0 := by norm_num
      omega
    constructor
    · intro _; exact hneg
    · intro _
      exact mul_neg_of_neg_of_pos (by exact_mod_cast hneg2) hp
  · have h52 := two_pow_le_div_ulp x hpos
    have hfl : (2 ^ (52 : ℕ) : ℤ) ≤ ⌊x / 2 ^ ulpExp x⌋ := by
      rw [Int.le_floor]; push_cast; exact h52
    have hr := roundHalfEven_ge (x / 2 ^ ulpExp x)
    have hpos2 : 0 < roundHalfEven (x / 2 ^ ulpExp x) := by
      have : (0 : ℤ) < 2 ^ (52 : ℕ) := by norm_num
      omega
    constructor
    · intro h
      have : (0 : ℚ) < (roundHalfEven (x / 2 ^ ulpExp x) : ℚ) * 2 ^ ulpExp x :=
        mul_pos (by exact_mod_cast hpos2) hp
      linarith
    · intro h; linarith

theorem roundHalfEven_eq_of (y : ℚ) (m : ℤ) (hlo : (m : ℚ) - 1 / 2 < y)
    (hhi : y < (m : ℚ) + 1 / 2) : roundHalfEven y = m := by
  have hf1 : ((⌊y⌋ : ℤ) : ℚ) ≤ y := Int.floor_le y
  have hf2 : y < ((⌊y⌋ : ℤ) : ℚ) + 1 := Int.lt_floor_add_one y
  unfold roundHalfEven
  simp only
  split_ifs with h1 h2 h3
  · have a : ((⌊y⌋ : ℤ) : ℚ) < (m : ℚ) + 1 := by linarith
    have b : (m : ℚ) < ((⌊y⌋ : ℤ) : ℚ) + 1 := by linarith
    have a' : ⌊y⌋ < m + 1 := by exact_mod_cast a
    have b' : m < ⌊y⌋ + 1 := by exact_mod_cast b
    omega
  · have a : ((⌊y⌋ : ℤ) : ℚ) < (m : ℚ) := by linarith
    have b : (m : ℚ) < ((⌊y⌋ : ℤ) : ℚ) + 2 := by linarith
    have a' : ⌊y⌋ < m := by exact_mod_cast a
    have b' : m < ⌊y⌋ + 2 := by exact_mod_cast b
    omega
  · exfalso
    have e : y - ⌊y⌋ = 1 / 2 := le_antisymm (not_lt.mp h2) (not_lt.mp h1)
    have a : ((⌊y⌋ : ℤ) : ℚ) < (m : ℚ) := by linarith
    have b : (m : ℚ) < ((⌊y⌋ : ℤ) : ℚ) + 1 := by linarith
    have a' : ⌊y⌋ < m := by exact_mod_cast a
    have b' : m < ⌊y⌋ + 1 := by exact_mod_cast b
    omega
  · exfalso
    have e : y - ⌊y⌋ = 1 / 2 := le_antisymm (not_lt.mp h2) (not_lt.mp h1)
    have a : ((⌊y⌋ : ℤ) : ℚ) < (m : ℚ) := by linarith
    have b : (m : ℚ) < ((⌊y⌋ : ℤ) : ℚ) + 1 := by linarith
    have a' : ⌊y⌋ < m := by exact_mod_cast a
    have b' : m < ⌊y⌋ + 1 := by exact_mod_cast b
    omega

theorem int_log_two_eq (r : ℚ) (k : ℤ) (h1 : (2 : ℚ) ^ k ≤ r) (h2 : r < (2 : ℚ) ^ (k + 1)) :
    Int.log 2 r = k := by
  have hr : 0 < r := lt_of_lt_of_le (by positivity) h1
  have ha : k ≤ Int.log 2 r := by
    have := (Int.zpow_le_iff_le_log (b := 2) (by norm_num) hr (x := k)).mp (by exact_mod_cast h1)
    exact this
  have hb : Int.log 2 r < k + 1 := by
    have := (Int.lt_zpow_iff_log_lt (b := 2) (by norm_num) hr (x := k + 1)).mp (by exact_mod_cast h2)
    exact this
  omega

/-- The value of `roundDouble x` from the binade of `x` and the integer nearest to
`x` in units in the last place. -/
theorem roundDouble_eq_of (x : ℚ) (k m : ℤ) (h1 : (2 : ℚ) ^ k ≤ x) (h2 : x < (2 : ℚ) ^ (k + 1))
    (hlo : (m : ℚ) - 1 / 2 < x / 2 ^ (k - 52)) (hhi : x / 2 ^ (k - 52) < (m : ℚ) + 1 / 2) :
    roundDouble x = m * 2 ^ (k - 52) := by
  have hx : 0 < x := lt_of_lt_of_le (by positivity) h1
  have hu : ulpExp x = k - 52 := by
    unfold ulpExp
    rw [abs_of_pos hx, int_log_two_eq x k h1 h2]
  unfold roundDouble
  rw [if_neg (ne_of_gt hx), hu, roundHalfEven_eq_of _ m hlo hhi]

theorem lt_of_sq_lt_sq_rat (a b : ℚ) (hb : 0 ≤ b) (h : a ^ 2 < b ^ 2) : a < b := by
  by_contra hc
  exact absurd h (not_lt.mpr (pow_le_pow_left₀ hb (not_lt.mp hc) 2))

/-- The value of `sqrtDouble y` from the binade of `y` and the integer `n` whose
neighbouring half-integers bracket the scaled square root. -/
theorem sqrtDouble_eq_of (y : ℚ) (k : ℤ) (n : ℕ) (h1 : (2 : ℚ) ^ k ≤ y)
    (h2 : y < (2 : ℚ) ^ (k + 1)) (hn : 1 ≤ n)
    (hlo : ((n : ℚ) - 1 / 2) ^ 2 < y / 2 ^ (2 * (k / 2 - 52)))
    (hhi : y / 2 ^ (2 * (k / 2 - 52)) < ((n : ℚ) + 1 / 2) ^ 2) :
    sqrtDouble y = n * 2 ^ (k / 2 - 52) := by
  have hy : 0 < y := lt_of_lt_of_le (by positivity) h1
  have hL := int_log_two_eq y k h1 h2
  unfold sqrtDouble
  rw [if_neg (not_le.mpr hy), hL]
  simp only
  generalize y / 2 ^ (2 * (k / 2 - 52)) = z at hlo hhi ⊢
  have hz0 : 0 ≤ z := le_trans (sq_nonneg _) hlo.le
  generalize hK : Nat.sqrt ⌊z⌋₊ = K
  have hk1 : ((K : ℚ)) ^ 2 ≤ z := by
    have h := Nat.sqrt_le' ⌊z⌋₊
    rw [hK] at h
    have h' : ((K ^ 2 : ℕ) : ℚ) ≤ ((⌊z⌋₊ : ℕ) : ℚ) := by exact_mod_cast h
    have := Nat.floor_le hz0
    push_cast at h'
    linarith
  have hk2 : z < ((K : ℚ) + 1) ^ 2 := by
    have h := Nat.lt_succ_sqrt' ⌊z⌋₊
    rw [hK] at h
    have h' : ((⌊z⌋₊ : ℕ) : ℚ) + 1 ≤ (((K + 1) ^ 2 : ℕ) : ℚ) := by
      have : ⌊z⌋₊ + 1 ≤ (K + 1) ^ 2 := h
      exact_mod_cast this
    have := Nat.lt_floor_add_one z
    push_cast at h'
    linarith
  have hn1 : (1 : ℚ) ≤ n := by exact_mod_cast hn
  have hK0 : (0 : ℚ) ≤ K := Nat.cast_nonneg K
  have hmid : (K : ℚ) ^ 2 + K + 1 / 4 = ((K : ℚ) + 1 / 2) ^ 2 := by ring
  rw [hmid]
  have hval : (if z < ((K : ℚ) + 1 / 2) ^ 2 then K
        else if ((K : ℚ) + 1 / 2) ^ 2 < z then K + 1
        else if K % 2 = 0 then K else K + 1) = n := by
    split_ifs with c1 c2 c3
    · have a := lt_of_sq_lt_sq_rat _ _ (by linarith) (lt_trans hlo c1)
      have b := lt_of_sq_lt_sq_rat _ _ (by linarith) (lt_of_le_of_lt hk1 hhi)
      have a' : (n : ℚ) < ((K + 1 : ℕ) : ℚ) := by push_cast; linarith
      have b' : (K : ℚ) < ((n + 1 : ℕ) : ℚ) := by push_cast; linarith
      have a'' : n < K + 1 := by exact_mod_cast a'
      have b'' : K < n + 1 := by exact_mod_cast b'
      omega
    · have a := lt_of_sq_lt_sq_rat _ _ (by linarith) (lt_trans c2 hhi)
      have b := lt_of_sq_lt_sq_rat _ _ (by linarith) (lt_trans hlo hk2)
      have a' : (K : ℚ) < (n : ℚ) := by linarith
      have b' : (n : ℚ) < ((K + 2 : ℕ) : ℚ) := by push_cast; linarith
      have a'' : K < n := by exact_mod_cast a'
      have b'' : n < K + 2 := by exact_mod_cast b'
      omega
    · exfalso
      have e : z = ((K : ℚ) + 1 / 2) ^ 2 := le_antisymm (not_lt.mp c2) (not_lt.mp c1)
      rw [e] at hlo hhi
      have a := lt_of_sq_lt_sq_rat _ _ (by linarith) hlo
      have b := lt_of_sq_lt_sq_rat _ _ (by linarith) hhi
      have a' : (n : ℚ) < ((K + 1 : ℕ) : ℚ) := by push_cast; linarith
      have b' : (K : ℚ) < (n : ℚ) := by linarith
      have a'' : n < K + 1 := by exact_mod_cast a'
      have b'' : K < n := by exact_mod_cast b'
      omega
    · exfalso
      have e : z = ((K : ℚ) + 1 / 2) ^ 2 := le_antisymm (not_lt.mp c2) (not_lt.mp c1)
      rw [e] at hlo hhi
      have a := lt_of_sq_lt_sq_rat _ _ (by linarith) hlo
      have b := lt_of_sq_lt_sq_rat _ _ (by linarith) hhi
      have a' : (n : ℚ) < ((K + 1 : ℕ) : ℚ) := by push_cast; linarith
      have b' : (K : ℚ) < (n : ℚ) := by linarith
      have a'' : n < K + 1 := by exact_mod_cast a'
      have b'' : K < n := by exact_mod_cast b'
      omega
  rw [hval]

theorem roundHalfEven_abs_sub_le (y : ℚ) : |(roundHalfEven y : ℚ) - y| ≤ 1 / 2 := by
  have hf1 : ((⌊y⌋ : ℤ) : ℚ) ≤ y := Int.floor_le y
  have hf2 : y < ((⌊y⌋ : ℤ) : ℚ) + 1 := Int.lt_floor_add_one y
  unfold roundHalfEven
  simp only
  rw [abs_le]
  split_ifs with h1 h2 h3
  · constructor <;> linarith
  · push_cast; constructor <;> linarith
  · have e : y - ⌊y⌋ = 1 / 2 := le_antisymm (not_lt.mp h2) (not_lt.mp h1)
    constructor <;> linarith
  · have e : y - ⌊y⌋ = 1 / 2 := le_antisymm (not_lt.mp h2) (not_lt.mp h1)
    push_cast; constructor <;> linarith

theorem div_ulp_lt_two_pow (x : ℚ) (hx : 0 < x) : x / 2 ^ ulpExp x < (2 : ℚ) ^ (53 : ℕ) := by
  unfold ulpExp
  rw [abs_of_pos hx]
  have h := Int.lt_zpow_succ_log_self (b := 2) (by norm_num) x
  have h2 : (0 : ℚ) < 2 ^ (Int.log 2 x - 52) := by positivity
  rw [div_lt_iff₀ h2]
  have : (2 : ℚ) ^ (53 : ℕ) * 2 ^ (Int.log 2 x - 52) = 2 ^ (Int.log 2 x + 1) := by
    rw [← zpow_natCast, ← zpow_add₀ (by norm_num)]
    congr 1
    push_cast
    ring
  rw [this]
  exact_mod_cast h

/-- For a positive `x`, `roundDouble x` is a number with 53 significant bits (an integer
between `2^52` and `2^53` times the unit in the last place of `x`) within half a
unit in the last place of `x`. -/
theorem roundDouble_nearest (x : ℚ) (hx : 0 < x) :
    ∃ m : ℤ, roundDouble x = m * 2 ^ ulpExp x
      ∧ 2 ^ (52 : ℕ) ≤ m ∧ m ≤ 2 ^ (53 : ℕ)
      ∧ |roundDouble x - x| ≤ 2 ^ ulpExp x / 2 := by
  have hp : (0 : ℚ) < 2 ^ ulpExp x := by positivity
  have hrd : roundDouble x = (roundHalfEven (x / 2 ^ ulpExp x) : ℚ) * 2 ^ ulpExp x := by
    unfold roundDouble
    rw [if_neg (ne_of_gt hx)]
  refine ⟨roundHalfEven (x / 2 ^ ulpExp x), hrd, ?_, ?_, ?_⟩
  · have h52 := two_pow_le_div_ulp x hx
    have hfl : (2 ^ (52 : ℕ) : ℤ) ≤ ⌊x / 2 ^ ulpExp x⌋ := by
      rw [Int.le_floor]; push_cast; exact h52
    exact le_trans hfl (roundHalfEven_ge _)
  · have h53 := div_ulp_lt_two_pow x hx
    have hfl : ⌊x / 2 ^ ulpExp x⌋ < (2 ^ (53 : ℕ) : ℤ) := by
      rw [Int.floor_lt]; push_cast; exact h53
    have := roundHalfEven_le (x / 2 ^ ulpExp x)
    omega
  · have herr := roundHalfEven_abs_sub_le (x / 2 ^ ulpExp x)
    have e : roundDouble x - x
        = ((roundHalfEven (x / 2 ^ ulpExp x) : ℚ) - x / 2 ^ ulpExp x) * 2 ^ ulpExp x := by
      rw [hrd]
      field_simp
    rw [e, abs_mul, abs_of_pos hp]
    calc |(roundHalfEven (x / 2 ^ ulpExp x) : ℚ) - x / 2 ^ ulpExp x| * 2 ^ ulpExp x
        ≤ 1 / 2 * 2 ^ ulpExp x := mul_le_mul_of_nonneg_right herr hp.le
      _ = 2 ^ ulpExp x / 2 := by ring

/-- For a positive `y`, `sqrtDouble y` is a number with 53 significant bits within half
a unit in the last place of the real square root of `y`. -/
theorem sqrtDouble_nearest (y : ℚ) (hy : 0 < y) :
    ∃ n : ℕ, sqrtDouble y = n * 2 ^ (Int.log 2 y / 2 - 52)
      ∧ 2 ^ (52 : ℕ) ≤ n ∧ n ≤ 2 ^ (53 : ℕ)
      ∧ |((sqrtDouble y : ℚ) : ℝ) - Real.sqrt (y : ℝ)|
          ≤ (2 : ℝ) ^ (Int.log 2 y / 2 - 52) / 2 := by
  have hL1 : (2 : ℚ) ^ Int.log 2 y ≤ y := by
    have := Int.zpow_log_le_self (b := 2) (by norm_num) hy
    exact_mod_cast this
  have hL2 : y < (2 : ℚ) ^ (Int.log 2 y + 1) := by
    have := Int.lt_zpow_succ_log_self (b := 2) (by norm_num) y
    exact_mod_cast this
  unfold sqrtDouble
  rw [if_neg (not_le.mpr hy)]
  simp only
  generalize Int.log 2 y = L at hL1 hL2 ⊢
  have hh1 : 2 * (L / 2) ≤ L := by omega
  have hh2 : L + 1 ≤ 2 * (L / 2) + 2 := by omega
  generalize hu : L / 2 - 52 = u
  have hu1 : 2 * u + 104 ≤ L := by omega
  have hu2 : L + 1 ≤ 2 * u + 106 := by omega
  have hp : (0 : ℚ) < 2 ^ (2 * u) := by positivity
  have hz1 : (2 : ℚ) ^ (104 : ℕ) ≤ y / 2 ^ (2 * u) := by
    rw [le_div_iff₀ hp]
    have e : (2 : ℚ) ^ (104 : ℕ) * 2 ^ (2 * u) = 2 ^ (2 * u + 104) := by
      rw [← zpow_natCast, ← zpow_add₀ (by norm_num)]
      congr 1
      push_cast
      ring
    rw [e]
    exact le_trans (zpow_le_zpow_right₀ (by norm_num) hu1) hL1
  have hz2 : y / 2 ^ (2 * u) < (2 : ℚ) ^ (106 : ℕ) := by
    rw [div_lt_iff₀ hp]
    have e : (2 : ℚ) ^ (106 : ℕ) * 2 ^ (2 * u) = 2 ^ (2 * u + 106) := by
      rw [← zpow_natCast, ← zpow_add₀ (by norm_num)]
      congr 1
      push_cast
      ring
    rw [e]
    exact lt_of_lt_of_le hL2 (zpow_le_zpow_right₀ (by norm_num) hu2)
  have hyz : (y : ℝ) = ((y / 2 ^ (2 * u) : ℚ) : ℝ) * ((2 : ℝ) ^ u) ^ 2 := by
    have e : y = y / 2 ^ (2 * u) * ((2 : ℚ) ^ u) ^ 2 := by
      have : ((2 : ℚ) ^ u) ^ 2 = 2 ^ (2 * u) := by
        rw [← zpow_natCast, ← zpow_mul]
        congr 1
        push_cast
        ring
      rw [this]
      field_simp
    conv_lhs => rw [e]
    push_cast
    rfl
  generalize y / 2 ^ (2 * u) = z at hz1 hz2 hyz ⊢
  have hz0 : 0 ≤ z := le_trans (by positivity) hz1
  have hfl1 : 2 ^ (104 : ℕ) ≤ ⌊z⌋₊ := by
    rw [Nat.le_floor_iff hz0, Nat.cast_pow, Nat.cast_ofNat]
    exact hz1
  have hfl2 : ⌊z⌋₊ < 2 ^ (106 : ℕ) := by
    rw [Nat.floor_lt hz0, Nat.cast_pow, Nat.cast_ofNat]
    exact hz2
  have hKlo : 2 ^ (52 : ℕ) ≤ Nat.sqrt ⌊z⌋₊ := by
    have e : (2 : ℕ) ^ (52 : ℕ) * 2 ^ (52 : ℕ) = 2 ^ (104 : ℕ) := by rw [← pow_add]
    rw [Nat.le_sqrt, e]
    exact hfl1
  have hKhi : Nat.sqrt ⌊z⌋₊ < 2 ^ (53 : ℕ) := by
    have e : (2 : ℕ) ^ (53 : ℕ) * 2 ^ (53 : ℕ) = 2 ^ (106 : ℕ) := by rw [← pow_add]
    rw [Nat.sqrt_lt, e]
    exact hfl2
  have hk1 : ((Nat.sqrt ⌊z⌋₊ : ℕ) : ℚ) ^ 2 ≤ z := by
    have h := Nat.sqrt_le' ⌊z⌋₊
    have h' : ((Nat.sqrt ⌊z⌋₊ ^ 2 : ℕ) : ℚ) ≤ ((⌊z⌋₊ : ℕ) : ℚ) := by exact_mod_cast h
    have := Nat.floor_le hz0
    push_cast at h'
    linarith
  have hk2 : z < (((Nat.sqrt ⌊z⌋₊ : ℕ) : ℚ) + 1) ^ 2 := by
    have h := Nat.lt_succ_sqrt' ⌊z⌋₊
    have h' : ((⌊z⌋₊ : ℕ) : ℚ) + 1 ≤ (((Nat.sqrt ⌊z⌋₊ + 1) ^ 2 : ℕ) : ℚ) := by
      have : ⌊z⌋₊ + 1 ≤ (Nat.sqrt ⌊z⌋₊ + 1) ^ 2 := h
      exact_mod_cast this
    have := Nat.lt_floor_add_one z
    push_cast at h'
    linarith
  generalize Nat.sqrt ⌊z⌋₊ = K at hKlo hKhi hk1 hk2 ⊢
  have hmid : (K : ℚ) ^ 2 + K + 1 / 4 = ((K : ℚ) + 1 / 2) ^ 2 := by ring
  rw [hmid]
  have hzr0 : (0 : ℝ) ≤ (z : ℝ) := by exact_mod_cast hz0
  have hK0 : (0 : ℝ) ≤ (K : ℝ) := Nat.cast_nonneg K
  have hs1 : (K : ℝ) ≤ Real.sqrt (z : ℝ) := by
    apply Real.le_sqrt_of_sq_le
    exact_mod_cast hk1
  have hs2 : Real.sqrt (z : ℝ) < (K : ℝ) + 1 := by
    rw [Real.sqrt_lt' (by linarith)]
    exact_mod_cast hk2
  have hsy : Real.sqrt (y : ℝ) = Real.sqrt (z : ℝ) * (2 : ℝ) ^ u := by
    rw [hyz, Real.sqrt_mul hzr0, Real.sqrt_sq (by positivity)]
  have hpr : (0 : ℝ) < (2 : ℝ) ^ u := by positivity
  have fin : ∀ n : ℕ, |(n : ℝ) - Real.sqrt (z : ℝ)| ≤ 1 / 2 →
      |(((n : ℚ) * 2 ^ u : ℚ) : ℝ) - Real.sqrt (y : ℝ)| ≤ (2 : ℝ) ^ u / 2 := by
    intro n hn
    have e : (((n : ℚ) * 2 ^ u : ℚ) : ℝ) - Real.sqrt (y : ℝ)
        = ((n : ℝ) - Real.sqrt (z : ℝ)) * (2 : ℝ) ^ u := by
      rw [hsy]
      push_cast
      ring
    rw [e, abs_mul, abs_of_pos hpr]
    calc |(n : ℝ) - Real.sqrt (z : ℝ)| * (2 : ℝ) ^ u ≤ 1 / 2 * (2 : ℝ) ^ u :=
          mul_le_mul_of_nonneg_right hn hpr.le
      _ = (2 : ℝ) ^ u / 2 := by ring
  have hlow : z < ((K : ℚ) + 1 / 2) ^ 2 → Real.sqrt (z : ℝ) < (K : ℝ) + 1 / 2 := by
    intro c
    rw [Real.sqrt_lt' (by linarith)]
    have c' := (Rat.cast_lt (K := ℝ)).mpr c
    push_cast at c'
    exact c'
  have hupp : ((K : ℚ) + 1 / 2) ^ 2 ≤ z → (K : ℝ) + 1 / 2 ≤ Real.sqrt (z : ℝ) := by
    intro c
    apply Real.le_sqrt_of_sq_le
    have c' := (Rat.cast_le (K := ℝ)).mpr c
    push_cast at c'
    exact c'
  have caseK : Real.sqrt (z : ℝ) ≤ (K : ℝ) + 1 / 2 →
      |(K : ℝ) - Real.sqrt (z : ℝ)| ≤ 1 / 2 := by
    intro c
    rw [abs_le]
    constructor <;> linarith
  have caseK1 : (K : ℝ) + 1 / 2 ≤ Real.sqrt (z : ℝ) →
      |((K + 1 : ℕ) : ℝ) - Real.sqrt (z : ℝ)| ≤ 1 / 2 := by
    intro c
    rw [abs_le]
    push_cast
    constructor <;> linarith
  split_ifs with c1 c2 c3
  · exact ⟨K, rfl, hKlo, hKhi.le, fin K (caseK (hlow c1).le)⟩
  · exact ⟨K + 1, rfl, by omega, by omega, fin (K + 1) (caseK1 (hupp c2.le))⟩
  · have e : z = ((K : ℚ) + 1 / 2) ^ 2 := le_antisymm (not_lt.mp c2) (not_lt.mp c1)
    have hle : Real.sqrt (z : ℝ) ≤ (K : ℝ) + 1 / 2 := by
      rw [Real.sqrt_le_iff]
      refine ⟨by linarith, ?_⟩
      have c' := (Rat.cast_le (K := ℝ)).mpr e.le
      push_cast at c'
      exact c'
    exact ⟨K, rfl, hKlo, hKhi.le, fin K (caseK hle)⟩
  · exact ⟨K + 1, rfl, by omega, by omega, fin (K + 1) (caseK1 (hupp (not_lt.mp c1)))⟩

theorem roundHalfEven_tie_even (m : ℤ) (hm : m % 2 = 0) :
    roundHalfEven ((m : ℚ) + 1 / 2) = m := by
  have hf : ⌊(m : ℚ) + 1 / 2⌋ = m := by
    rw [Int.floor_eq_iff]
    constructor <;> linarith
  unfold roundHalfEven
  simp only
  rw [hf]
  have e : (m : ℚ) + 1 / 2 - m = 1 / 2 := by ring
  rw [e, if_neg (lt_irrefl _), if_neg (lt_irrefl _), if_pos hm]

/-! ## Pricing: `costOf` against the summed price -/

theorem parseInt_of_lt (q : ℤ) (h : q.natAbs < 10 ^ 21) : parseInt q = q := by
  unfold parseInt
  rw [if_pos h]

theorem sumPrice_eq_mul_geom (have_ : ℤ) (qty : ℕ) (base growth : ℚ) (hg : growth ≠ 0) :
    sumPrice have_ qty base growth
      = base * growth ^ have_ * ∑ i in Finset.range qty, growth ^ i := by
  unfold sumPrice
  rw [Finset.mul_sum]
  refine Finset.sum_congr rfl fun i _ => ?_
  rw [zpow_add₀ hg, zpow_natCast, mul_assoc]

/-- C1 (amended): for every integer `have ≥ 0`, every quantity `1 ≤ qty < 10^21`,
every `base` and every `growth > 0`, `costOf(key, have, qty, base, growth)` is the sum
over `i < qty` of `base * growth ^ (have + i)`, whatever the key; at `qty = 0` it is
the price `base * growth ^ have` of one unit. -/
theorem costOf_eq_sumPrice (key : String) (have_ : ℤ) (qty : ℕ) (base growth : ℚ)
    (_hhave : 0 ≤ have_) (hg : 0 < growth) (hq1 : 1 ≤ qty) (hq2 : qty < 10 ^ 21) :
    costOf key have_ qty base growth = sumPrice have_ qty base growth
      ∧ costOf key have_ 0 base growth = base * growth ^ have_ := by
  have hg0 : growth ≠ 0 := ne_of_gt hg
  have hp : parseInt (qty : ℤ) = qty := parseInt_of_lt _ (by simpa using hq2)
  have hq0 : (qty : ℤ) ≠ 0 := by omega
  have hp0 : parseInt 0 = 0 := parseInt_of_lt _ (by norm_num)
  constructor
  · rw [sumPrice_eq_mul_geom _ _ _ _ hg0]
    simp only [costOf, hp, hq0, if_neg hg0, if_false]
    by_cases h1 : growth = 1
    · subst h1
      simp
    · rw [if_neg h1, geom_sum_eq h1, zpow_natCast, mul_div_assoc]
  · simp only [costOf, hp0, if_neg hg0, if_true]
    by_cases h1 : growth = 1
    · subst h1
      simp
    · have : growth - 1 ≠ 0 := sub_ne_zero.mpr h1
      rw [if_neg h1]
      field_simp

/-- C1 fails at `qty = 0`: `costOf('monkey', 0, 0, 1, 1.30)` is `1`, the price of one
unit (`parseInt(qty, 10) || 1`), while the empty sum is `0`. -/
theorem costOf_zero_qty_counterexample :
    costOf "monkey" 0 0 1 (13 / 10) = 1 ∧ sumPrice 0 0 1 (13 / 10) = 0
      ∧ ¬ (costOf "monkey" 0 0 1 (13 / 10) = sumPrice 0 0 1 (13 / 10)) := by
  have h1 : costOf "monkey" 0 0 1 (13 / 10) = 1 := by
    norm_num [costOf, parseInt]
  have h2 : sumPrice 0 0 1 (13 / 10) = 0 := by
    simp [sumPrice]
  refine ⟨h1, h2, ?_⟩
  rw [h1, h2]
  norm_num

/-- C1 (amended) at `have = 1`, `qty = 24`, `base = 1`, `growth = 1.30`. -/
theorem costOf_eq_sumPrice_witness :
    costOf "monkey" 1 24 1 (13 / 10) = sumPrice 1 24 1 (13 / 10)
      ∧ costOf "monkey" 1 0 1 (13 / 10) = 1 * (13 / 10 : ℚ) ^ (1 : ℤ) :=
  costOf_eq_sumPrice "monkey" 1 24 1 (13 / 10) (by norm_num) (by norm_num) (by norm_num)
    (by norm_num)

/-! ## Pricing: quantities in exponent form -/

theorem roundDouble_1e21 : roundDouble 1000000000000000000000 = 1000000000000000000000 := by
  have h := roundDouble_eq_of 1000000000000000000000 69 7629394531250000
    (by norm_num) (by norm_num) (by norm_num) (by norm_num)
  rw [h]
  norm_num

theorem roundDouble_2e21 : roundDouble 2000000000000000000000 = 2000000000000000000000 := by
  have h := roundDouble_eq_of 2000000000000000000000 70 7629394531250000
    (by norm_num) (by norm_num) (by norm_num) (by norm_num)
  rw [h]
  norm_num

theorem decimalCandidate_1e21 :
    decimalCandidate 1000000000000000000000 22 1 = some 1000000000000000000000 := by
  unfold decimalCandidate
  norm_num [roundDouble_1e21, roundDouble_2e21]

theorem shortestFrom_of_candidate (d len fuel k c : ℕ)
    (h : decimalCandidate d len k = some c) : shortestFrom d len (fuel + 1) k = c := by
  rw [shortestFrom, h]

theorem shortestDecimal_1e21 :
    shortestDecimal 1000000000000000000000 = 1000000000000000000000 := by
  have hlen : (Nat.digits 10 1000000000000000000000).length = 22 := by norm_num
  unfold shortestDecimal
  rw [hlen]
  exact shortestFrom_of_candidate _ _ 16 1 _ decimalCandidate_1e21

/-- The double `1e21` prints as `"1e+21"`, of which `parseInt` reads the `1`. -/
theorem parseInt_exponent_form : parseInt 1000000000000000000000 = 1 := by
  have hs : Int.sign 1000000000000000000000 = 1 := Int.sign_eq_one_of_pos (by norm_num)
  have hfl : ⌊(1000000000000000000000 : ℚ)⌋₊ = 1000000000000000000000 := by
    have : (1000000000000000000000 : ℚ) = ((1000000000000000000000 : ℕ) : ℚ) := by norm_num
    rw [this, Nat.floor_natCast]
  have hld : leadingDigit 1000000000000000000000 = 1 := by
    unfold leadingDigit
    norm_num
  have hna : Int.natAbs 1000000000000000000000 = 1000000000000000000000 := rfl
  have hc : ((1000000000000000000000 : ℕ) : ℚ) = 1000000000000000000000 := by norm_num
  have hbig : ¬ (2 ^ 1024 ≤ (1000000000000000000000 : ℕ)) := by norm_num
  unfold parseInt
  rw [hna, if_neg (by norm_num)]
  simp only
  rw [hc, roundDouble_1e21, hfl, if_neg hbig, shortestDecimal_1e21, hld, hs]
  norm_num

theorem roundDouble_9e22 :
    roundDouble 90000000000000000000000 = 89999999999999995805696 := by
  have h := roundDouble_eq_of 90000000000000000000000 76 5364418029785156
    (by norm_num) (by norm_num) (by norm_num) (by norm_num)
  rw [h]
  norm_num

theorem roundDouble_1e23 :
    roundDouble 100000000000000000000000 = 99999999999999991611392 := by
  have hu : ulpExp 100000000000000000000000 = 24 := by
    unfold ulpExp
    rw [abs_of_pos (by norm_num), int_log_two_eq _ 76 (by norm_num) (by norm_num)]
    norm_num
  have hq : (100000000000000000000000 : ℚ) / 2 ^ (24 : ℤ)
      = ((5960464477539062 : ℤ) : ℚ) + 1 / 2 := by norm_num
  unfold roundDouble
  rw [if_neg (by norm_num), hu, hq, roundHalfEven_tie_even _ (by norm_num)]
  norm_num

theorem roundDouble_1e23_double :
    roundDouble 99999999999999991611392 = 99999999999999991611392 := by
  have h := roundDouble_eq_of 99999999999999991611392 76 5960464477539062
    (by norm_num) (by norm_num) (by norm_num) (by norm_num)
  rw [h]
  norm_num

theorem decimalCandidate_1e23 :
    decimalCandidate 99999999999999991611392 23 1 = some 100000000000000000000000 := by
  unfold decimalCandidate
  norm_num [roundDouble_9e22, roundDouble_1e23]

theorem shortestDecimal_1e23 :
    shortestDecimal 99999999999999991611392 = 100000000000000000000000 := by
  have hlen : (Nat.digits 10 99999999999999991611392).length = 23 := by norm_num
  unfold shortestDecimal
  rw [hlen]
  exact shortestFrom_of_candidate _ _ 16 1 _ decimalCandidate_1e23

/-- The double nearest to `1e23`, `99999999999999991611392`, prints as `"1e+23"`: the
shortest decimal that reads back as it is `1e23`, and `parseInt` reads the `1`. -/
theorem parseInt_1e23 : parseInt 99999999999999991611392 = 1 := by
  have hs : Int.sign 99999999999999991611392 = 1 := Int.sign_eq_one_of_pos (by norm_num)
  have hfl : ⌊(99999999999999991611392 : ℚ)⌋₊ = 99999999999999991611392 := by
    have : (99999999999999991611392 : ℚ) = ((99999999999999991611392 : ℕ) : ℚ) := by norm_num
    rw [this, Nat.floor_natCast]
  have hld : leadingDigit 100000000000000000000000 = 1 := by
    unfold leadingDigit
    norm_num
  have hna : Int.natAbs 99999999999999991611392 = 99999999999999991611392 := rfl
  have hc : ((99999999999999991611392 : ℕ) : ℚ) = 99999999999999991611392 := by norm_num
  have hbig : ¬ (2 ^ 1024 ≤ (99999999999999991611392 : ℕ)) := by norm_num
  unfold parseInt
  rw [hna, if_neg (by norm_num)]
  simp only
  rw [hc, roundDouble_1e23_double, hfl, if_neg hbig, shortestDecimal_1e23, hld, hs]
  norm_num

/-- From `1e21` on `parseInt` reads the exponent form of the quantity: `1e21` units at
`base = 1`, `growth = 1` are priced as one unit. -/
theorem costOf_exponent_form_qty :
    costOf "monkey" 0 (10 ^ 21) 1 1 = 1 := by
  have h : (10 : ℤ) ^ 21 = 1000000000000000000000 := by norm_num
  rw [h]
  norm_num [costOf, parseInt_exponent_form]

/-! ## The floor of a logarithm -/

theorem one_add_mul_le_pow_rat (b : ℚ) (hb : 1 < b) (n : ℕ) : 1 + n * (b - 1) ≤ b ^ n := by
  have h := one_add_mul_le_pow (show (-2 : ℚ) ≤ b - 1 by linarith) n
  simpa using h

theorem lt_pow_succ_of_div_le (b y : ℚ) (hb : 1 < b) (n : ℕ) (hn : y / (b - 1) ≤ n) :
    y < b ^ (n + 1) := by
  have hb1 : 0 < b - 1 := by linarith
  have h1 : y ≤ n * (b - 1) := (div_le_iff₀ hb1).mp hn
  have h2 := one_add_mul_le_pow_rat b hb (n + 1)
  push_cast at h2
  nlinarith

theorem floorLogGt_spec (b y : ℚ) (hb : 1 < b) (hy : 0 < y) :
    b ^ floorLogGt b y ≤ y ∧ y < b ^ (floorLogGt b y + 1) := by
  have hb0 : 0 < b := by linarith
  unfold floorLogGt
  split_ifs with h1
  · set N := ⌈y / (b - 1)⌉₊ with hN
    have hP0 : b ^ 0 ≤ y := by simpa using h1
    have hk : b ^ Nat.findGreatest (fun k => b ^ k ≤ y) N ≤ y :=
      Nat.findGreatest_spec (P := fun k => b ^ k ≤ y) (Nat.zero_le N) hP0
    refine ⟨by rw [zpow_natCast]; exact hk, ?_⟩
    have hcast : ((Nat.findGreatest (fun k => b ^ k ≤ y) N : ℕ) : ℤ) + 1
        = ((Nat.findGreatest (fun k => b ^ k ≤ y) N + 1 : ℕ) : ℤ) := by push_cast; ring
    rw [hcast, zpow_natCast]
    rcases Nat.lt_or_ge (Nat.findGreatest (fun k => b ^ k ≤ y) N) N with hlt | hge
    · have := Nat.findGreatest_is_greatest (P := fun k => b ^ k ≤ y)
        (Nat.lt_succ_self _) hlt
      exact not_le.mp this
    · have hle : Nat.findGreatest (fun k => b ^ k ≤ y) N ≤ N := Nat.findGreatest_le N
      have heq : Nat.findGreatest (fun k => b ^ k ≤ y) N = N := le_antisymm hle hge
      rw [heq]
      exact lt_pow_succ_of_div_le b y hb N (Nat.le_ceil _)
  · have hy1 : y < 1 := not_le.mp h1
    have hinv : 1 < 1 / y := by rw [lt_div_iff₀ hy]; linarith
    set N := ⌈1 / y / (b - 1)⌉₊ with hN
    set j := Nat.findGreatest (fun k => b ^ k < 1 / y) N with hj
    have hP0 : b ^ 0 < 1 / y := by simpa using hinv
    have hk : b ^ j < 1 / y :=
      Nat.findGreatest_spec (P := fun k => b ^ k < 1 / y) (Nat.zero_le N) hP0
    have hup : 1 / y ≤ b ^ (j + 1) := by
      rcases Nat.lt_or_ge j N with hlt | hge
      · have := Nat.findGreatest_is_greatest (P := fun k => b ^ k < 1 / y)
          (Nat.lt_succ_self _) hlt
        exact not_lt.mp this
      · have hle : j ≤ N := Nat.findGreatest_le N
        have heq : j = N := le_antisymm hle hge
        rw [heq]
        exact le_of_lt (lt_pow_succ_of_div_le b (1 / y) hb N (Nat.le_ceil _))
    have hbj : 0 < b ^ j := pow_pos hb0 j
    have hbj1 : 0 < b ^ (j + 1) := pow_pos hb0 (j + 1)
    constructor
    · rw [zpow_neg, show ((j : ℤ) + 1) = ((j + 1 : ℕ) : ℤ) by push_cast; ring, zpow_natCast]
      rw [inv_eq_one_div, div_le_iff₀ hbj1]
      rw [div_le_iff₀ hy] at hup
      linarith
    · rw [show -((j : ℤ) + 1) + 1 = -(j : ℤ) by ring, zpow_neg, zpow_natCast]
      rw [inv_eq_one_div, lt_div_iff₀ hbj]
      rw [lt_div_iff₀ hy] at hk
      linarith

theorem floor_log_div_log_eq (b y : ℝ) (hb : 1 < b) (hy : 0 < y) (k : ℤ)
    (h1 : b ^ k ≤ y) (h2 : y < b ^ (k + 1)) : ⌊Real.log y / Real.log b⌋ = k := by
  have hb0 : 0 < b := by linarith
  have hlb : 0 < Real.log b := Real.log_pos hb
  rw [Int.floor_eq_iff]
  constructor
  · rw [le_div_iff₀ hlb, ← Real.log_zpow]
    exact Real.log_le_log (zpow_pos hb0 k) h1
  · rw [div_lt_iff₀ hlb]
    have := Real.log_lt_log hy h2
    rw [Real.log_zpow] at this
    push_cast at this
    exact this

theorem logFloor_eq_floor_log (a x : ℚ) (ha : 0 < a) (ha1 : a ≠ 1) (hx : 0 < x) :
    logFloor a x = some ⌊Real.log (x : ℝ) / Real.log (a : ℝ)⌋ := by
  unfold logFloor
  rw [if_pos hx]
  by_cases hgt : 1 < a
  · rw [if_pos hgt]
    obtain ⟨h1, h2⟩ := floorLogGt_spec a x hgt hx
    have h1r : (a : ℝ) ^ floorLogGt a x ≤ (x : ℝ) := by exact_mod_cast h1
    have h2r : (x : ℝ) < (a : ℝ) ^ (floorLogGt a x + 1) := by exact_mod_cast h2
    rw [floor_log_div_log_eq (a : ℝ) (x : ℝ) (by exact_mod_cast hgt) (by exact_mod_cast hx)
      _ h1r h2r]
  · rw [if_neg hgt, if_neg ha1, if_pos ha]
    have hlt : a < 1 := lt_of_le_of_ne (not_lt.mp hgt) ha1
    have hinv : 1 < 1 / a := by rw [lt_div_iff₀ ha]; linarith
    have hxinv : 0 < 1 / x := by positivity
    obtain ⟨h1, h2⟩ := floorLogGt_spec (1 / a) (1 / x) hinv hxinv
    have h1r : ((1 / a : ℚ) : ℝ) ^ floorLogGt (1 / a) (1 / x) ≤ ((1 / x : ℚ) : ℝ) := by
      exact_mod_cast h1
    have h2r : ((1 / x : ℚ) : ℝ) < ((1 / a : ℚ) : ℝ) ^ (floorLogGt (1 / a) (1 / x) + 1) := by
      exact_mod_cast h2
    have hfl := floor_log_div_log_eq ((1 / a : ℚ) : ℝ) ((1 / x : ℚ) : ℝ)
      (by exact_mod_cast hinv) (by exact_mod_cast hxinv) _ h1r h2r
    have hquot : Real.log ((1 / x : ℚ) : ℝ) / Real.log ((1 / a : ℚ) : ℝ)
        = Real.log (x : ℝ) / Real.log (a : ℝ) := by
      push_cast
      rw [one_div, one_div, Real.log_inv, Real.log_inv, neg_div_neg_eq]
    rw [hquot] at hfl
    rw [hfl]

/-! ## Pricing: `maxAffordable` inverts the summed price -/

theorem toInt32_of_lt (k : ℤ) (h0 : 0 ≤ k) (h1 : k < 2147483648) : toInt32 k = k := by
  unfold toInt32
  have hmod : k % 4294967296 = k := Int.emod_eq_of_lt h0 (by linarith)
  simp only [hmod]
  rw [if_neg (by linarith)]

theorem toInt32_of_ge (k : ℤ) (h0 : 2147483648 ≤ k) (h1 : k < 4294967296) :
    toInt32 k = k - 4294967296 := by
  unfold toInt32
  have hmod : k % 4294967296 = k := Int.emod_eq_of_lt (by linarith) h1
  simp only [hmod]
  rw [if_pos h0]

theorem sumPrice_closed (have_ : ℤ) (n : ℕ) (base g : ℚ) (hg : 0 < g) (h1 : g ≠ 1) :
    sumPrice have_ n base g = base * g ^ have_ * ((g ^ n - 1) / (g - 1)) := by
  rw [sumPrice_eq_mul_geom _ _ _ _ (ne_of_gt hg), geom_sum_eq h1]

theorem sumPrice_one_growth (have_ : ℤ) (n : ℕ) (base : ℚ) :
    sumPrice have_ n base 1 = base * n := by
  rw [sumPrice_eq_mul_geom _ _ _ _ one_ne_zero]
  simp

theorem sumPrice_mono (have_ : ℤ) (base g : ℚ) (hbase : 0 < base) (hg : 0 < g) {m n : ℕ}
    (hmn : m ≤ n) : sumPrice have_ m base g ≤ sumPrice have_ n base g := by
  unfold sumPrice
  apply Finset.sum_le_sum_of_subset_of_nonneg
  · exact Finset.range_mono hmn
  · intro i _ _
    exact le_of_lt (mul_pos hbase (zpow_pos hg _))

/-- The closed form of `maxAffordable` with logarithms taken without rounding: for every
integer `have ≥ 0`, `base > 0`, `growth ≥ 1` and `budget ≥ 0` such that `growth = 1`
or `2^31` units are not affordable, the exact model `maxAffordable` returns a quantity
`q ≥ 0` whose summed price is at most `budget`, while the summed price of `q + 1`
units exceeds `budget`.  The engine computes the quotient of logarithms in doubles
and can return one less (see `closedFormQty`). -/
theorem maxAffordable_largest (key : String) (have_ : ℤ) (base growth budget : ℚ)
    (_hhave : 0 ≤ have_) (hbase : 0 < base) (hg : 1 ≤ growth) (hb : 0 ≤ budget)
    (h31 : growth = 1 ∨ budget < sumPrice have_ (2 ^ 31) base growth) :
    ∃ q : ℕ, maxAffordable key have_ base growth budget = some (q : ℤ)
      ∧ sumPrice have_ q base growth ≤ budget
      ∧ budget < sumPrice have_ (q + 1) base growth
      ∧ ∀ n : ℕ, sumPrice have_ n base growth ≤ budget → n ≤ q := by
  have hg0 : 0 < growth := by linarith
  have hgne : growth ≠ 0 := ne_of_gt hg0
  have hhead : 0 < base * growth ^ have_ := mul_pos hbase (zpow_pos hg0 _)
  -- it is enough to exhibit `q` with the two price bounds
  suffices hmain : ∃ q : ℕ, maxAffordable key have_ base growth budget = some (q : ℤ)
      ∧ sumPrice have_ q base growth ≤ budget
      ∧ budget < sumPrice have_ (q + 1) base growth by
    obtain ⟨q, hq, hle, hlt⟩ := hmain
    refine ⟨q, hq, hle, hlt, fun n hn => ?_⟩
    by_contra hcon
    have hqn : q + 1 ≤ n := by omega
    have := sumPrice_mono have_ base growth hbase hg0 hqn
    linarith
  unfold maxAffordable
  simp only [if_neg hgne]
  by_cases hlow : budget < base * growth ^ have_
  · refine ⟨0, by rw [if_pos hlow]; rfl, by simpa [sumPrice] using hb, ?_⟩
    simpa [sumPrice] using hlow
  rw [if_neg hlow]
  have hge : base * growth ^ have_ ≤ budget := not_lt.mp hlow
  by_cases h1 : growth = 1
  · subst h1
    have hone : base * (1 : ℚ) ^ have_ = base := by rw [one_zpow, mul_one]
    rw [if_pos rfl, hone, if_neg (ne_of_gt hbase)]
    have hfl0 : 0 ≤ ⌊budget / base⌋ := Int.floor_nonneg.mpr (div_nonneg hb hbase.le)
    have hc : ((⌊budget / base⌋.toNat : ℕ) : ℚ) = ((⌊budget / base⌋ : ℤ) : ℚ) := by
      rw [← Int.cast_natCast, Int.toNat_of_nonneg hfl0]
    refine ⟨⌊budget / base⌋.toNat, by rw [Int.toNat_of_nonneg hfl0], ?_, ?_⟩
    · rw [sumPrice_one_growth, hc]
      have := Int.floor_le (budget / base)
      rw [le_div_iff₀ hbase] at this
      linarith
    · rw [sumPrice_one_growth]
      push_cast
      rw [hc]
      have := Int.lt_floor_add_one (budget / base)
      rw [div_lt_iff₀ hbase] at this
      linarith
  · have hgt : 1 < growth := lt_of_le_of_ne hg (Ne.symm h1)
    have hg1 : 0 < growth - 1 := by linarith
    have h31' : budget < sumPrice have_ (2 ^ 31) base growth := h31.resolve_left h1
    rw [if_neg h1, if_neg (ne_of_gt hhead)]
    set x : ℚ := budget * (growth - 1) / (base * growth ^ have_) + 1 with hx
    have hx1 : 1 ≤ x := by
      have : 0 ≤ budget * (growth - 1) / (base * growth ^ have_) :=
        div_nonneg (mul_nonneg hb hg1.le) hhead.le
      rw [hx]
      exact le_add_of_nonneg_left this
    have hx0 : 0 < x := by linarith
    have hlog : logFloor growth x = some (floorLogGt growth x) := by
      unfold logFloor
      rw [if_pos hx0, if_pos hgt]
    obtain ⟨hk1, hk2⟩ := floorLogGt_spec growth x hgt hx0
    set k : ℤ := floorLogGt growth x with hk
    -- affordability of `n` units in terms of `x`
    have haff : ∀ n : ℕ, sumPrice have_ n base growth ≤ budget ↔ growth ^ n ≤ x := by
      intro n
      rw [sumPrice_closed _ _ _ _ hg0 h1, hx, ← sub_le_iff_le_add, le_div_iff₀ hhead,
        ← mul_div_assoc, div_le_iff₀ hg1]
      constructor <;> intro h <;> nlinarith
    have hk0 : 0 ≤ k := by
      have h : growth ^ (0 : ℤ) < growth ^ (k + 1) := by
        rw [zpow_zero]; linarith
      have := (zpow_lt_zpow_iff_right₀ hgt).mp h
      omega
    have hk31 : k < 2147483648 := by
      have hx31 : x < growth ^ (2 ^ 31 : ℕ) := by
        by_contra hcon
        exact absurd ((haff (2 ^ 31)).mpr (not_lt.mp hcon)) (not_le.mpr h31')
      have h : growth ^ k < growth ^ ((2 ^ 31 : ℕ) : ℤ) := by
        rw [zpow_natCast]; linarith
      have := (zpow_lt_zpow_iff_right₀ hgt).mp h
      norm_num at this
      exact this
    rw [hlog]
    simp only []
    rw [toInt32_of_lt k hk0 hk31, max_eq_right hk0]
    refine ⟨k.toNat, by rw [Int.toNat_of_nonneg hk0], ?_, ?_⟩
    · rw [haff, ← zpow_natCast, Int.toNat_of_nonneg hk0]
      exact hk1
    · rw [← not_le, haff, not_le, ← zpow_natCast]
      push_cast
      rw [Int.toNat_of_nonneg hk0]
      exact hk2

theorem sumPrice_13_gt_100 : (100 : ℚ) < sumPrice 1 (2 ^ 31) 1 (13 / 10) := by
  have h13 : (100 : ℚ) < sumPrice 1 13 1 (13 / 10) := by
    rw [sumPrice_closed _ _ _ _ (by norm_num) (by norm_num)]
    norm_num
  have hmono := sumPrice_mono 1 1 (13 / 10) (by norm_num) (by norm_num)
    (show 13 ≤ 2 ^ 31 by norm_num)
  exact lt_of_lt_of_le h13 hmono

/-- The exact closed form at `have = 1`, `base = 1`, `growth = 1.30`, `budget = 100`. -/
theorem maxAffordable_largest_witness :
    ∃ q : ℕ, maxAffordable "monkey" 1 1 (13 / 10) 100 = some (q : ℤ)
      ∧ sumPrice 1 q 1 (13 / 10) ≤ 100
      ∧ 100 < sumPrice 1 (q + 1) 1 (13 / 10)
      ∧ ∀ n : ℕ, sumPrice 1 n 1 (13 / 10) ≤ 100 → n ≤ q :=
  maxAffordable_largest "monkey" 1 1 (13 / 10) 100 (by norm_num) (by norm_num) (by norm_num)
    (by norm_num) (Or.inr sumPrice_13_gt_100)

theorem one_add_inv_pow_le (n m : ℕ) (hn : 0 < n) :
    (1 + 1 / (n : ℚ)) ^ (n * m) ≤ 3 ^ m := by
  have hn' : (0 : ℝ) < n := by exact_mod_cast hn
  have hreal : (1 + 1 / (n : ℝ)) ^ (n * m) ≤ 3 ^ m := by
    have h1 : 1 + 1 / (n : ℝ) ≤ Real.exp (1 / n) := by
      have := Real.add_one_le_exp (1 / (n : ℝ))
      linarith
    have h0 : (0 : ℝ) ≤ 1 + 1 / (n : ℝ) := by positivity
    have h2 : (1 + 1 / (n : ℝ)) ^ (n * m) ≤ Real.exp (1 / n) ^ (n * m) :=
      pow_le_pow_left₀ h0 h1 _
    have h3 : Real.exp (1 / n) ^ (n * m) = Real.exp 1 ^ m := by
      rw [pow_mul, ← Real.exp_nat_mul, mul_one_div_cancel (ne_of_gt hn')]
    have h4 : Real.exp 1 ^ m ≤ (3 : ℝ) ^ m := by
      apply pow_le_pow_left₀ (Real.exp_pos 1).le
      have := Real.exp_one_lt_d9
      norm_num at this ⊢
      linarith
    calc (1 + 1 / (n : ℝ)) ^ (n * m) ≤ Real.exp (1 / n) ^ (n * m) := h2
      _ = Real.exp 1 ^ m := h3
      _ ≤ 3 ^ m := h4
  have hcast : (((1 + 1 / (n : ℚ)) ^ (n * m) : ℚ) : ℝ) ≤ (((3 : ℚ) ^ m : ℚ) : ℝ) := by
    push_cast
    exact hreal
  exact Rat.cast_le.mp hcast

theorem two_pow_le_one_add_inv_pow (n m : ℕ) (hn : 0 < n) :
    (2 : ℚ) ^ m ≤ (1 + 1 / (n : ℚ)) ^ (n * m) := by
  have hn' : (0 : ℚ) < n := by exact_mod_cast hn
  have hb : 1 < 1 + 1 / (n : ℚ) := by
    have : 0 < 1 / (n : ℚ) := by positivity
    linarith
  have h1 : (2 : ℚ) ≤ (1 + 1 / (n : ℚ)) ^ n := by
    have := one_add_mul_le_pow_rat (1 + 1 / (n : ℚ)) hb n
    have hc : 1 + (n : ℚ) * (1 + 1 / (n : ℚ) - 1) = 2 := by
      field_simp
      ring
    rw [hc] at this
    exact this
  rw [pow_mul]
  exact pow_le_pow_left₀ (by norm_num) h1 _

theorem tinyGrowth_pow_le : tinyGrowth ^ (4194304 * 512 : ℕ) ≤ 2 ^ 848 := by
  have h := one_add_inv_pow_le 4194304 512 (by norm_num)
  have h5 : (3 : ℚ) ^ (512 : ℕ) ≤ 2 ^ 848 := by norm_num
  unfold tinyGrowth
  exact le_trans h h5

theorem tinyGrowth_pow_ge : (2 : ℚ) ^ 1024 ≤ tinyGrowth ^ (4194304 * 1024 : ℕ) := by
  unfold tinyGrowth
  exact two_pow_le_one_add_inv_pow 4194304 1024 (by norm_num)

/-- The coercion `q|0` wraps once the quantity leaves the signed 32-bit range: with `base = 1`,
`growth = 1 + 2^-22` and `budget = 2^870` the quotient of logarithms lies between
`2^31` and `2^32`, `q|0` is negative, and `maxAffordable` returns `0` although one
unit costs `1`. -/
theorem maxAffordable_int32_counterexample :
    maxAffordable "monkey" 0 1 tinyGrowth (2 ^ 870) = some 0
      ∧ sumPrice 0 1 1 tinyGrowth = 1
      ∧ ¬ ((2 : ℚ) ^ 870 < sumPrice 0 (0 + 1) 1 tinyGrowth) := by
  have hsum : sumPrice 0 1 1 tinyGrowth = 1 := by
    simp [sumPrice]
  refine ⟨?_, hsum, ?_⟩
  · have hgt : 1 < tinyGrowth := by norm_num [tinyGrowth]
    have hx : (2 : ℚ) ^ 870 * (tinyGrowth - 1) / (1 * tinyGrowth ^ (0 : ℤ)) + 1 = 2 ^ 848 + 1 := by
      norm_num [tinyGrowth]
    have hx0 : (0 : ℚ) < 2 ^ 848 + 1 := by positivity
    obtain ⟨hk1, hk2⟩ := floorLogGt_spec tinyGrowth (2 ^ 848 + 1) hgt hx0
    set k : ℤ := floorLogGt tinyGrowth (2 ^ 848 + 1) with hk
    have hlo : 2147483648 ≤ k := by
      have h : tinyGrowth ^ ((4194304 * 512 : ℕ) : ℤ) < tinyGrowth ^ (k + 1) := by
        rw [zpow_natCast]
        have h1 := tinyGrowth_pow_le
        have h2 : (2 : ℚ) ^ 848 < 2 ^ 848 + 1 := lt_add_one _
        exact lt_of_le_of_lt h1 (lt_trans h2 hk2)
      have := (zpow_lt_zpow_iff_right₀ hgt).mp h
      push_cast at this
      omega
    have hhi : k < 4294967296 := by
      have h : tinyGrowth ^ k < tinyGrowth ^ ((4194304 * 1024 : ℕ) : ℤ) := by
        rw [zpow_natCast]
        have h1 := tinyGrowth_pow_ge
        have h2 : (2 : ℚ) ^ 848 + 1 < 2 ^ 1024 := by norm_num
        exact lt_of_le_of_lt hk1 (lt_of_lt_of_le h2 h1)
      have := (zpow_lt_zpow_iff_right₀ hgt).mp h
      push_cast at this
      omega
    have hlog : logFloor tinyGrowth (2 ^ 848 + 1) = some k := by
      unfold logFloor
      rw [if_pos hx0, if_pos hgt]
    unfold maxAffordable
    have hm : tinyGrowth ≠ 0 := by norm_num [tinyGrowth]
    have hhead : ¬ ((2 : ℚ) ^ 870 < 1 * tinyGrowth ^ (0 : ℤ)) := by norm_num
    have hne1 : tinyGrowth ≠ 1 := ne_of_gt hgt
    have hhead0 : (1 : ℚ) * tinyGrowth ^ (0 : ℤ) ≠ 0 := by norm_num
    simp only [if_neg hm, if_neg hhead, if_neg hne1, if_neg hhead0, hx, hlog]
    rw [toInt32_of_ge k hlo hhi, max_eq_left (by linarith)]
  · rw [zero_add, hsum]
    norm_num

/-! ## Pricing: the closed form of `maxAffordable` in doubles -/

theorem roundDouble_log_quotient :
    roundDouble (log1000Double / log10Double) = 3 - 1 / 2 ^ 51 := by
  have h := roundDouble_eq_of (log1000Double / log10Double) 1 6755399441055743
    (by norm_num [log1000Double, log10Double]) (by norm_num [log1000Double, log10Double])
    (by norm_num [log1000Double, log10Double]) (by norm_num [log1000Double, log10Double])
  rw [h]
  norm_num

/-- C2 fails at `have = 0`, `base = 1`, `growth = 10`, `budget = 111`: three units cost
`1 + 10 + 100 = 111`, within the budget, and four cost more, so the largest affordable
quantity is `3`.  The engine passes the early returns (`head = 1 ≤ 111`, `a ≠ 1`), the
argument of the logarithm is exactly `1000` and the exact quotient
`log 1000 / log 10` is `3`, but the quotient of the doubles `Math.log(1000)` and
`Math.log(10)` rounds to `3 - 2^-51`, whose floor is `2`: `maxAffordable` returns `2`. -/
theorem maxAffordable_rounds_below_largest :
    closedFormQty log1000Double log10Double = 2
      ∧ roundDouble (log1000Double / log10Double) = 3 - 1 / 2 ^ 51
      ∧ (1 : ℚ) * 10 ^ (0 : ℤ) ≤ 111
      ∧ (111 : ℚ) * (10 - 1) / (1 * 10 ^ (0 : ℤ)) + 1 = 1000
      ∧ Real.log 1000 / Real.log 10 = 3
      ∧ sumPrice 0 3 1 10 = 111
      ∧ (111 : ℚ) < sumPrice 0 4 1 10 := by
  refine ⟨?_, roundDouble_log_quotient, by norm_num, by norm_num, ?_, ?_, ?_⟩
  · have hf : ⌊(3 : ℚ) - 1 / 2 ^ 51⌋ = 2 := by
      rw [Int.floor_eq_iff]
      constructor <;> norm_num
    unfold closedFormQty
    simp only
    rw [roundDouble_log_quotient, hf]
    norm_num [toInt32]
  · have h10 : (0 : ℝ) < Real.log 10 := Real.log_pos (by norm_num)
    have e : (1000 : ℝ) = 10 ^ (3 : ℕ) := by norm_num
    rw [e, Real.log_pow]
    field_simp
  · norm_num [sumPrice, Finset.sum_range_succ]
  · norm_num [sumPrice, Finset.sum_range_succ]

/-! ## Purchases -/

theorem maxAffordable_eq_none_iff (key : String) (have_ : ℤ) (base m food : ℚ) :
    maxAffordable key have_ base m food = none ↔ m = 1 ∧ base = 0 ∧ 0 ≤ food := by
  unfold maxAffordable
  by_cases hm : m = 0
  · subst hm
    have h13 : (13 / 10 : ℚ) ≠ 1 := by norm_num
    simp only [if_true, if_neg h13]
    constructor
    · intro h
      split_ifs at h
      split at h <;> simp at h
    · rintro ⟨h, -, -⟩
      norm_num at h
  · simp only [if_neg hm]
    constructor
    · intro h
      split_ifs at h with h1 h2 h3 h4
      · subst h2
        rw [one_zpow, mul_one] at h3 h1
        exact ⟨rfl, h3, by rw [h3] at h1; exact not_lt.mp h1⟩
      · split at h <;> simp at h
    · rintro ⟨h1, h2, h3⟩
      subst h1 h2
      simp [not_lt.mpr h3]

theorem resolveQty_eq_none_iff (s : State) (key : UnitKey) (mode : String) :
    resolveQty s key mode = none
      ↔ mode = "max" ∧ (s.units.get key).m = 1 ∧ (s.units.get key).base = 0 ∧ 0 ≤ s.food := by
  unfold resolveQty
  by_cases h10 : mode = "10"
  · subst h10; simp
  by_cases h100 : mode = "100"
  · subst h100; simp
  by_cases hmax : mode = "max"
  · subst hmax
    simp [maxAffordable_eq_none_iff]
  · simp [h10, h100, hmax]

theorem Units.get_set_self (u : Units) (key : UnitKey) (r : UnitRec) :
    (u.set key r).get key = r := by
  cases key <;> rfl

theorem Units.get_set_of_ne (u : Units) (key k : UnitKey) (r : UnitRec) (h : k ≠ key) :
    (u.set key r).get k = u.get k := by
  cases key <;> cases k <;> first | rfl | exact absurd rfl h

/-- C3: for every state, unit key and mode in `'1'`, `'10'`, `'100'`, `'max'`, `buy`
resolves the quantity (`1`, `10`, `100`, `maxAffordable`); when the quantity is `≤ 0`
or `food < price` it returns `false` and the state is unchanged; otherwise it
returns `true`, `food` decreases by exactly `costOf(have, qty, base, m)`, the unit's
count increases by exactly `qty`, and no other field and no other unit changes.
The model leaves the finite numbers (`none`) exactly when mode `'max'` meets a
record with `m = 1`, `base = 0` and `food ≥ 0`, where the quantity is `Infinity`
or `NaN`. -/
theorem buy_all_or_nothing (s : State) (key : UnitKey) (mode : String)
    (hmode : mode = "1" ∨ mode = "10" ∨ mode = "100" ∨ mode = "max") :
    (mode = "1" → resolveQty s key mode = some 1)
    ∧ (mode = "10" → resolveQty s key mode = some 10)
    ∧ (mode = "100" → resolveQty s key mode = some 100)
    ∧ (mode = "max" → resolveQty s key mode
        = maxAffordable key.name (s.units.get key).count (s.units.get key).base
            (s.units.get key).m s.food)
    ∧ (buy s key mode = none ↔
        mode = "max" ∧ (s.units.get key).m = 1 ∧ (s.units.get key).base = 0 ∧ 0 ≤ s.food)
    ∧ ∀ qty : ℤ, resolveQty s key mode = some qty →
        ((qty ≤ 0 ∨ s.food < costOf key.name (s.units.get key).count qty (s.units.get key).base
              (s.units.get key).m) →
          buy s key mode = some (false, s))
        ∧ (¬ (qty ≤ 0 ∨ s.food < costOf key.name (s.units.get key).count qty
              (s.units.get key).base (s.units.get key).m) →
          ∃ t : State, buy s key mode = some (true, t)
            ∧ t.food = s.food - costOf key.name (s.units.get key).count qty
                (s.units.get key).base (s.units.get key).m
            ∧ (t.units.get key).count = (s.units.get key).count + qty
            ∧ (t.units.get key).base = (s.units.get key).base
            ∧ (t.units.get key).m = (s.units.get key).m
            ∧ (t.units.get key).prod = (s.units.get key).prod
            ∧ (∀ k : UnitKey, k ≠ key → t.units.get k = s.units.get k)
            ∧ t.relics = s.relics ∧ t.totalProduced = s.totalProduced
            ∧ t.upgrades = s.upgrades ∧ t.lastSave = s.lastSave ∧ t.lastTick = s.lastTick
            ∧ t.offlineCapMins = s.offlineCapMins ∧ t.speedMult = s.speedMult
            ∧ t.milestone = s.milestone ∧ t.econ130 = s.econ130
            ∧ t.parrotTimer = s.parrotTimer) := by
  refine ⟨?_, ?_, ?_, ?_, ?_, ?_⟩
  · intro h; subst h; simp [resolveQty]
  · intro h; subst h; simp [resolveQty]
  · intro h; subst h; simp [resolveQty]
  · intro h; subst h; simp [resolveQty]
  · rw [← resolveQty_eq_none_iff]
    unfold buy
    cases hq : resolveQty s key mode with
    | none => simp
    | some qty =>
      simp only []
      split_ifs <;> simp
  · intro qty hq
    constructor
    · intro hrej
      unfold buy
      simp only [hq]
      rw [if_pos hrej]
    · intro hacc
      unfold buy
      simp only [hq]
      rw [if_neg hacc]
      refine ⟨_, rfl, rfl, ?_, ?_, ?_, ?_, ?_, rfl, rfl, rfl, rfl, rfl, rfl, rfl, rfl, rfl, rfl⟩
      · simp only [Units.get_set_self]
      · simp only [Units.get_set_self]
      · simp only [Units.get_set_self]
      · simp only [Units.get_set_self]
      · intro k hk
        exact Units.get_set_of_ne _ _ _ _ hk

/-- C3 at a fresh game with ten food buying one monkey: the purchase succeeds, costs
`1.30` and leaves the zebra record alone. -/
theorem buy_all_or_nothing_witness :
    ∃ t : State, buy tenFoodState .monkey "1" = some (true, t)
      ∧ t.food = 10 - 13 / 10 ∧ (t.units.get .monkey).count = 2
      ∧ t.units.get .zebra = tenFoodState.units.get .zebra := by
  obtain ⟨h1, -, -, -, -, h⟩ := buy_all_or_nothing tenFoodState .monkey "1" (Or.inl rfl)
  have hcost : costOf UnitKey.monkey.name (tenFoodState.units.get .monkey).count 1
      (tenFoodState.units.get .monkey).base (tenFoodState.units.get .monkey).m = 13 / 10 := by
    norm_num [costOf, parseInt, tenFoodState, freshState, roster, Units.get]
  obtain ⟨t, ht, hfood, hcount, -, -, -, hother, -⟩ := (h 1 (h1 rfl)).2 (by
    rw [hcost]
    norm_num [tenFoodState, freshState])
  refine ⟨t, ht, ?_, ?_, hother .zebra (by decide)⟩
  · rw [hfood, hcost]
    rfl
  · rw [hcount]
    rfl

/-! ## The rate used by the tick driver -/

theorem computeFPS_snd (s : State) :
    (computeFPS s).2 = { s with speedMult := 1 + 1 / 10 * (s.units.parrot.count : ℚ) } := rfl

/-- C4 fails on the code: `tick` calls the `computeFPS` of `core.js`, not the
replacement `ui.js` installs.  With `upg_monk_x2` purchased and 25 monkeys, a tick of
one second adds `50` to `food` and `totalProduced`, the rate of `core.js`, while the
rate reported to the UI is `100`. -/
theorem tick_ignores_upgrades :
    ∀ rand : ℕ → ℚ,
      (tick upgradedState 1 rand).food = upgradedState.food + 50
        ∧ (tick upgradedState 1 rand).totalProduced = upgradedState.totalProduced + 50
        ∧ (uiComputeFPS upgradedState).1 = 100
        ∧ (computeFPS upgradedState).1 = 50 := by
  intro rand
  have hfps : (computeFPS upgradedState).1 = 50 := by
    norm_num [computeFPS, milestoneMult, upgradedState, freshState, roster]
  have hz : ¬ "upg_zeb_x2" = "upg_monk_x2" := by decide
  have hs : ¬ "upg_speed_20" = "upg_monk_x2" := by decide
  have hui : (uiComputeFPS upgradedState).1 = 100 := by
    norm_num [uiComputeFPS, computeFPS, upgradedState, freshState, roster, hz, hs]
  refine ⟨?_, ?_, hui, hfps⟩
  · norm_num [tick, computeFPS, milestoneMult, upgradedState, freshState, roster]
  · norm_num [tick, computeFPS, milestoneMult, upgradedState, freshState, roster]

/-! ## Prestige -/

theorem prestigeGain_nearSquareState_quotient :
    roundDouble (nearSquareState.totalProduced / 1000000000000) = 25 - 1 / 2 ^ 48 := by
  have h := roundDouble_eq_of (6399999999999999 / 256 / 1000000000000) 4 7036874417766399
    (by norm_num) (by norm_num) (by norm_num) (by norm_num)
  have e : nearSquareState.totalProduced = 6399999999999999 / 256 := rfl
  rw [e, h]
  norm_num

theorem sqrtDouble_below_25 : sqrtDouble (25 - 1 / 2 ^ 48) = 5 := by
  have h := sqrtDouble_eq_of (25 - 1 / 2 ^ 48) 4 5629499534213120
    (by norm_num) (by norm_num) (by norm_num) (by norm_num) (by norm_num)
  rw [h]
  norm_num

theorem floor_sqrt_nearSquareState :
    ⌊Real.sqrt ((nearSquareState.totalProduced : ℝ) / 1000000000000)⌋ = 4 := by
  have e : nearSquareState.totalProduced = 6399999999999999 / 256 := rfl
  rw [e, Int.floor_eq_iff]
  constructor
  · apply Real.le_sqrt_of_sq_le
    norm_num
  · rw [Real.sqrt_lt' (by norm_num)]
    norm_num

theorem doPrestige_eq_none_iff (s : State) (nowSave nowTick : ℚ) :
    doPrestige s nowSave nowTick = none ↔ s.totalProduced < 0 := by
  unfold doPrestige prestigeGain floorSqrt
  have hdiv : s.totalProduced / 1000000000000 < 0 ↔ s.totalProduced < 0 := by
    constructor
    · intro h
      by_contra hcon
      exact absurd h (not_lt.mpr (div_nonneg (not_lt.mp hcon) (by norm_num)))
    · intro h
      exact div_neg_of_neg_of_pos h (by norm_num)
  have hr := roundDouble_neg_iff (s.totalProduced / 1000000000000)
  by_cases h : roundDouble (s.totalProduced / 1000000000000) < 0
  · simp [h, hdiv.mp (hr.mp h)]
  · have h' : ¬ s.totalProduced < 0 := fun hc => h (hr.mpr (hdiv.mpr hc))
    simp [h, h']

/-- The reset of `doPrestige`: for every state with `totalProduced ≥ 0` the call returns
`prestigeGain(s)` and leaves the fresh state (`food = 0`, `totalProduced = 0`, one
monkey, no other unit, no upgrade) with `relics = relics_before + gain`. -/
theorem doPrestige_reset (s : State) (nowSave nowTick : ℚ) (htp : 0 ≤ s.totalProduced) :
    ∃ gain : ℤ, prestigeGain s = some gain
      ∧ doPrestige s nowSave nowTick
          = some (gain, { freshState nowSave nowTick with relics := s.relics + gain }) := by
  cases hg : prestigeGain s with
  | none =>
    exfalso
    have h : doPrestige s nowSave nowTick = none := by
      unfold doPrestige; rw [hg]
    exact absurd ((doPrestige_eq_none_iff s nowSave nowTick).mp h) (not_lt.mpr htp)
  | some gain =>
    refine ⟨gain, rfl, ?_⟩
    unfold doPrestige reset
    rw [hg]

/-- C5 fails at `totalProduced = 24999999999999.996`, the double just below `25e12`:
`floor(sqrt(totalProduced / 1e12))` is `4`, but the quotient rounds to the double
`25 - 2^-48`, whose square root rounds to `5.0`, so `doPrestige` returns
`gain = 5` and leaves `relics = 0 + 5`.  The reset itself is as claimed: the new state
is the fresh state with the new relic count. -/
theorem doPrestige_gain_exceeds_floor_sqrt :
    doPrestige nearSquareState 5 7 = some (5, { freshState 5 7 with relics := 5 })
      ∧ ⌊Real.sqrt ((nearSquareState.totalProduced : ℝ) / 1000000000000)⌋ = 4
      ∧ nearSquareState.relics = 0 ∧ 0 ≤ nearSquareState.totalProduced := by
  refine ⟨?_, floor_sqrt_nearSquareState, rfl, by norm_num [nearSquareState, freshState]⟩
  have hg : prestigeGain nearSquareState = some 5 := by
    unfold prestigeGain floorSqrt
    rw [prestigeGain_nearSquareState_quotient, if_neg (by norm_num), sqrtDouble_below_25]
    norm_num
  unfold doPrestige reset
  rw [hg]
  norm_num [nearSquareState, freshState]

/-- On `totalProduced = 4e12` the rounded computation agrees with the formula:
`doPrestige` returns `2`. -/
theorem doPrestige_richState :
    doPrestige richState 5 7 = some (2, { freshState 5 7 with relics := 3 + 2 }) := by
  have hq : roundDouble (richState.totalProduced / 1000000000000) = 4 := by
    have h := roundDouble_eq_of (4000000000000 / 1000000000000) 2 4503599627370496
      (by norm_num) (by norm_num) (by norm_num) (by norm_num)
    have e : richState.totalProduced = 4000000000000 := rfl
    rw [e, h]
    norm_num
  have hs : sqrtDouble 4 = 2 := by
    have h := sqrtDouble_eq_of 4 2 4503599627370496
      (by norm_num) (by norm_num) (by norm_num) (by norm_num) (by norm_num)
    rw [h]
    norm_num
  have hg : prestigeGain richState = some 2 := by
    unfold prestigeGain floorSqrt
    rw [hq, if_neg (by norm_num), hs]
    norm_num
  unfold doPrestige reset
  rw [hg]
  norm_num [richState, freshState]

/-! ## Offline catch-up and the tick driver -/

/-- C6: for every state and every non-zero `prevTime`, `applyOffline` returns, and
adds to both `food` and `totalProduced`, exactly
`computeFPS(state) * min(elapsedSec, capSeconds)`; hence an elapsed time of
`2 * capSeconds` grants the same amount as an elapsed time of `capSeconds`. -/
theorem applyOffline_spec (s : State) (now prevTime : ℚ) (hprev : prevTime ≠ 0) :
    (applyOffline s now prevTime).1
        = (computeFPS s).1 * min (elapsedSec now prevTime : ℚ) (capSeconds s)
      ∧ (applyOffline s now prevTime).2.food
        = s.food + (computeFPS s).1 * min (elapsedSec now prevTime : ℚ) (capSeconds s)
      ∧ (applyOffline s now prevTime).2.totalProduced
        = s.totalProduced + (computeFPS s).1 * min (elapsedSec now prevTime : ℚ) (capSeconds s)
      ∧ ∀ now2 : ℚ, (elapsedSec now prevTime : ℚ) = capSeconds s →
          (elapsedSec now2 prevTime : ℚ) = 2 * capSeconds s →
          (applyOffline s now2 prevTime).1 = (applyOffline s now prevTime).1 := by
  have hval : ∀ n : ℚ, (applyOffline s n prevTime).1
      = (computeFPS s).1 * min (elapsedSec n prevTime : ℚ) (capSeconds s) := by
    intro n
    unfold applyOffline
    rw [if_neg hprev]
    rfl
  refine ⟨hval now, ?_, ?_, ?_⟩
  · unfold applyOffline
    rw [if_neg hprev]
    rfl
  · unfold applyOffline
    rw [if_neg hprev]
    rfl
  · intro now2 h1 h2
    rw [hval, hval, h1, h2]
    have hnn : (0 : ℚ) ≤ capSeconds s := by
      rw [← h1]
      have : (0 : ℤ) ≤ elapsedSec now prevTime := le_max_left _ _
      exact_mod_cast this
    rw [min_self, min_eq_right (by linarith)]

/-- C6 at a fresh game (cap of 3600 seconds): 7200 elapsed seconds grant what 3600 do. -/
theorem applyOffline_spec_witness :
    (applyOffline (freshState 0 0) 7201000 1000).1
      = (applyOffline (freshState 0 0) 3601000 1000).1 := by
  have hcap : capSeconds (freshState 0 0) = 3600 := by
    norm_num [capSeconds, freshState, roster]
  have he1 : elapsedSec 3601000 1000 = 3600 := by
    have h : ((3601000 : ℚ) - 1000) / 1000 = ((3600 : ℤ) : ℚ) := by norm_num
    unfold elapsedSec
    rw [h, Int.floor_intCast]
    rfl
  have he2 : elapsedSec 7201000 1000 = 7200 := by
    have h : ((7201000 : ℚ) - 1000) / 1000 = ((7200 : ℤ) : ℚ) := by norm_num
    unfold elapsedSec
    rw [h, Int.floor_intCast]
    rfl
  exact (applyOffline_spec (freshState 0 0) 3601000 1000 (by norm_num)).2.2.2 7201000
    (by rw [he1, hcap]; norm_num) (by rw [he2, hcap]; norm_num)

theorem foldl_burstStep_frame (dt amt : ℚ) (rand : ℕ → ℚ) (l : List ℕ) (s : State) :
    (l.foldl (burstStep dt amt rand) s).units = s.units
      ∧ (l.foldl (burstStep dt amt rand) s).parrotTimer = s.parrotTimer
      ∧ (l.foldl (burstStep dt amt rand) s).relics = s.relics
      ∧ (l.foldl (burstStep dt amt rand) s).upgrades = s.upgrades
      ∧ (l.foldl (burstStep dt amt rand) s).speedMult = s.speedMult := by
  induction l generalizing s with
  | nil => exact ⟨rfl, rfl, rfl, rfl, rfl⟩
  | cons i l ih =>
    rw [List.foldl_cons]
    obtain ⟨h1, h2, h3, h4, h5⟩ := ih (burstStep dt amt rand s i)
    rw [h1, h2, h3, h4, h5]
    unfold burstStep
    split_ifs <;> exact ⟨rfl, rfl, rfl, rfl, rfl⟩

theorem tick_parrotTimer_eq (s : State) (dt : ℚ) (rand : ℕ → ℚ) :
    (tick s dt rand).parrotTimer
      = some (if 0 < s.units.parrot.count ∧ 300 ≤ s.parrotTimer.getD 0 + dt then 0
          else s.parrotTimer.getD 0 + dt) := by
  unfold tick
  simp only [computeFPS_snd]
  by_cases he : 0 < s.units.elephant.count
  · simp only [if_pos he, (foldl_burstStep_frame _ _ _ _ _).1,
      (foldl_burstStep_frame _ _ _ _ _).2.1]
    split_ifs <;> rfl
  · simp only [if_neg he]
    split_ifs <;> rfl

/-- C7 (amended): after `tick(s, dt)` the parrot cache timer is `0` when the parrot
count is positive and the old timer (`0` when absent) plus `dt` is at least `300`,
and is the old timer plus `dt` otherwise. -/
theorem tick_timer_resets_only_with_parrots (s : State) (dt : ℚ) (rand : ℕ → ℚ) :
    ((0 < s.units.parrot.count ∧ 300 ≤ s.parrotTimer.getD 0 + dt) →
        (tick s dt rand).parrotTimer = some 0)
      ∧ (¬ (0 < s.units.parrot.count ∧ 300 ≤ s.parrotTimer.getD 0 + dt) →
        (tick s dt rand).parrotTimer = some (s.parrotTimer.getD 0 + dt)) := by
  constructor
  · intro h
    rw [tick_parrotTimer_eq, if_pos h]
  · intro h
    rw [tick_parrotTimer_eq, if_neg h]

/-- C7 fails without parrots: a game with no parrot and the timer at `299.5` has the
timer at `300.5` after a tick of one second, not at `0`. -/
theorem tick_timer_not_reset_without_parrots :
    noParrotState.units.parrot.count = 0
      ∧ (300 : ℚ) ≤ noParrotState.parrotTimer.getD 0 + 1
      ∧ (tick noParrotState 1 (fun _ => 0)).parrotTimer = some (601 / 2)
      ∧ (tick noParrotState 1 (fun _ => 0)).parrotTimer ≠ some 0 := by
  have ht : (tick noParrotState 1 (fun _ => 0)).parrotTimer = some (601 / 2) := by
    rw [tick_parrotTimer_eq]
    norm_num [noParrotState, freshState, roster]
  refine ⟨rfl, ?_, ht, ?_⟩
  · norm_num [noParrotState, freshState]
  · rw [ht]
    norm_num

/-- C7 (amended) at a game with one parrot and the timer at `299.5`: a tick of one
second resets the timer. -/
theorem tick_timer_resets_only_with_parrots_witness :
    (tick parrotState 1 (fun _ => 0)).parrotTimer = some 0 :=
  (tick_timer_resets_only_with_parrots parrotState 1 (fun _ => 0)).1
    (by norm_num [parrotState, freshState, roster])

/-! ## Production: monotonicity of the rate -/

theorem milestoneMult_pos (n : ℤ) : 0 < milestoneMult n := by
  unfold milestoneMult
  exact zpow_pos (by norm_num) _

theorem milestoneMult_mono {a b : ℤ} (h : a ≤ b) : milestoneMult a ≤ milestoneMult b := by
  unfold milestoneMult
  exact zpow_le_zpow_right₀ (by norm_num) (Int.ediv_le_ediv (by norm_num) h)

theorem count_mul_milestone_lt (n : ℤ) (hn : 0 ≤ n) :
    (n : ℚ) * milestoneMult n < ((n + 1 : ℤ) : ℚ) * milestoneMult (n + 1) := by
  have hn' : (0 : ℚ) ≤ n := by exact_mod_cast hn
  have h1 : (n : ℚ) * milestoneMult n ≤ n * milestoneMult (n + 1) :=
    mul_le_mul_of_nonneg_left (milestoneMult_mono (by omega)) hn'
  have h2 : (n : ℚ) * milestoneMult (n + 1) < ((n + 1 : ℤ) : ℚ) * milestoneMult (n + 1) := by
    apply mul_lt_mul_of_pos_right _ (milestoneMult_pos _)
    push_cast
    linarith
  linarith

theorem computeFPS_fst (s : State) :
    (computeFPS s).1
      = ((s.units.monkey.count : ℚ) * s.units.monkey.prod * milestoneMult s.units.monkey.count
            * (1 + 5 / 1000 * (s.units.zebra.count : ℚ))
            * (1 + 1 / 100 * (s.units.gorilla.count : ℚ))
          + (s.units.zebra.count : ℚ) * s.units.zebra.prod * milestoneMult s.units.zebra.count
            * (1 + 1 / 100 * (s.units.gorilla.count : ℚ))
          + (s.units.gorilla.count : ℚ) * s.units.gorilla.prod
            * milestoneMult s.units.gorilla.count
          + (s.units.elephant.count : ℚ) * s.units.elephant.prod
            * milestoneMult s.units.elephant.count
          + (s.units.parrot.count : ℚ) * s.units.parrot.prod
            * milestoneMult s.units.parrot.count)
        * (1 + 1 / 10 * (s.units.parrot.count : ℚ)) * (1 + 1 / 100 * s.relics) := rfl

/-- C8 (amended): for every state with non-negative unit counts, positive per-unit
`prod` and at least one unit owned, and all relics `0 ≤ r1 < r2`, `computeFPS` of the
state with `relics = r1` is strictly less than with `relics = r2`. -/
theorem computeFPS_strictMono_relics (s : State) (r1 r2 : ℚ)
    (hcount : ∀ k : UnitKey, 0 ≤ (s.units.get k).count)
    (hprod : ∀ k : UnitKey, 0 < (s.units.get k).prod)
    (hown : ∃ k : UnitKey, 0 < (s.units.get k).count)
    (_hr1 : 0 ≤ r1) (hr : r1 < r2) :
    (computeFPS { s with relics := r1 }).1 < (computeFPS { s with relics := r2 }).1 := by
  rw [computeFPS_fst, computeFPS_fst]
  simp only []
  have cm := hcount .monkey; have cz := hcount .zebra; have cg := hcount .gorilla
  have ce := hcount .elephant; have cp := hcount .parrot
  have pm := hprod .monkey; have pz := hprod .zebra; have pg := hprod .gorilla
  have pe := hprod .elephant; have pp := hprod .parrot
  simp only [Units.get] at cm cz cg ce cp pm pz pg pe pp
  have cm' : (0 : ℚ) ≤ s.units.monkey.count := by exact_mod_cast cm
  have cz' : (0 : ℚ) ≤ s.units.zebra.count := by exact_mod_cast cz
  have cg' : (0 : ℚ) ≤ s.units.gorilla.count := by exact_mod_cast cg
  have ce' : (0 : ℚ) ≤ s.units.elephant.count := by exact_mod_cast ce
  have cp' : (0 : ℚ) ≤ s.units.parrot.count := by exact_mod_cast cp
  have Mm := milestoneMult_pos s.units.monkey.count
  have Mz := milestoneMult_pos s.units.zebra.count
  have Mg := milestoneMult_pos s.units.gorilla.count
  have Me := milestoneMult_pos s.units.elephant.count
  have Mp := milestoneMult_pos s.units.parrot.count
  have t1 : 0 ≤ (s.units.monkey.count : ℚ) * s.units.monkey.prod
      * milestoneMult s.units.monkey.count * (1 + 5 / 1000 * (s.units.zebra.count : ℚ))
      * (1 + 1 / 100 * (s.units.gorilla.count : ℚ)) := by positivity
  have t2 : 0 ≤ (s.units.zebra.count : ℚ) * s.units.zebra.prod
      * milestoneMult s.units.zebra.count * (1 + 1 / 100 * (s.units.gorilla.count : ℚ)) := by
    positivity
  have t3 : 0 ≤ (s.units.gorilla.count : ℚ) * s.units.gorilla.prod
      * milestoneMult s.units.gorilla.count := by positivity
  have t4 : 0 ≤ (s.units.elephant.count : ℚ) * s.units.elephant.prod
      * milestoneMult s.units.elephant.count := by positivity
  have t5 : 0 ≤ (s.units.parrot.count : ℚ) * s.units.parrot.prod
      * milestoneMult s.units.parrot.count := by positivity
  have hbase : 0 < (s.units.monkey.count : ℚ) * s.units.monkey.prod
        * milestoneMult s.units.monkey.count * (1 + 5 / 1000 * (s.units.zebra.count : ℚ))
        * (1 + 1 / 100 * (s.units.gorilla.count : ℚ))
      + (s.units.zebra.count : ℚ) * s.units.zebra.prod
        * milestoneMult s.units.zebra.count * (1 + 1 / 100 * (s.units.gorilla.count : ℚ))
      + (s.units.gorilla.count : ℚ) * s.units.gorilla.prod
        * milestoneMult s.units.gorilla.count
      + (s.units.elephant.count : ℚ) * s.units.elephant.prod
        * milestoneMult s.units.elephant.count
      + (s.units.parrot.count : ℚ) * s.units.parrot.prod
        * milestoneMult s.units.parrot.count := by
    obtain ⟨k, hk⟩ := hown
    cases k <;> simp only [Units.get] at hk
    · have hk' : (0 : ℚ) < s.units.monkey.count := by exact_mod_cast hk
      have : 0 < (s.units.monkey.count : ℚ) * s.units.monkey.prod
        * milestoneMult s.units.monkey.count * (1 + 5 / 1000 * (s.units.zebra.count : ℚ))
        * (1 + 1 / 100 * (s.units.gorilla.count : ℚ)) := by positivity
      linarith
    · have hk' : (0 : ℚ) < s.units.zebra.count := by exact_mod_cast hk
      have : 0 < (s.units.zebra.count : ℚ) * s.units.zebra.prod
        * milestoneMult s.units.zebra.count * (1 + 1 / 100 * (s.units.gorilla.count : ℚ)) := by
        positivity
      linarith
    · have hk' : (0 : ℚ) < s.units.gorilla.count := by exact_mod_cast hk
      have : 0 < (s.units.gorilla.count : ℚ) * s.units.gorilla.prod
        * milestoneMult s.units.gorilla.count := by positivity
      linarith
    · have hk' : (0 : ℚ) < s.units.elephant.count := by exact_mod_cast hk
      have : 0 < (s.units.elephant.count : ℚ) * s.units.elephant.prod
        * milestoneMult s.units.elephant.count := by positivity
      linarith
    · have hk' : (0 : ℚ) < s.units.parrot.count := by exact_mod_cast hk
      have : 0 < (s.units.parrot.count : ℚ) * s.units.parrot.prod
        * milestoneMult s.units.parrot.count := by positivity
      linarith
  have hspeed : (0 : ℚ) < 1 + 1 / 10 * (s.units.parrot.count : ℚ) := by positivity
  apply mul_lt_mul_of_pos_left _ (mul_pos hbase hspeed)
  linarith

/-- C8 fails when no unit is owned: the rate is `0` with `0` relics and with `1` relic. -/
theorem computeFPS_relics_counterexample :
    (∀ k : UnitKey, 0 ≤ (emptyState.units.get k).count)
      ∧ (∀ k : UnitKey, 0 < (emptyState.units.get k).prod)
      ∧ (computeFPS { emptyState with relics := 0 }).1 = 0
      ∧ (computeFPS { emptyState with relics := 1 }).1 = 0
      ∧ ¬ ((computeFPS { emptyState with relics := 0 }).1
            < (computeFPS { emptyState with relics := 1 }).1) := by
  have h0 : (computeFPS { emptyState with relics := 0 }).1 = 0 := by
    norm_num [computeFPS, emptyState, freshState, roster]
  have h1 : (computeFPS { emptyState with relics := 1 }).1 = 0 := by
    norm_num [computeFPS, emptyState, freshState, roster]
  refine ⟨?_, ?_, h0, h1, ?_⟩
  · intro k
    cases k <;> norm_num [emptyState, freshState, roster, Units.get]
  · intro k
    cases k <;> norm_num [emptyState, freshState, roster, Units.get]
  · rw [h0, h1]
    exact lt_irrefl 0

/-- C8 (amended) at a fresh game, relics `0` against `1`. -/
theorem computeFPS_strictMono_relics_witness :
    (computeFPS { freshState 0 0 with relics := 0 }).1
      < (computeFPS { freshState 0 0 with relics := 1 }).1 :=
  computeFPS_strictMono_relics (freshState 0 0) 0 1
    (by intro k; cases k <;> norm_num [freshState, roster, Units.get])
    (by intro k; cases k <;> norm_num [freshState, roster, Units.get])
    ⟨.monkey, by norm_num [freshState, roster, Units.get]⟩
    (le_refl 0) (by norm_num)

/-- C9: for every state with non-negative unit counts, positive per-unit `prod` and
`relics ≥ 0`, and each of the five unit types, raising that type's count by one
strictly increases `computeFPS`. -/
theorem computeFPS_strictMono_count (s : State) (key : UnitKey)
    (hcount : ∀ k : UnitKey, 0 ≤ (s.units.get k).count)
    (hprod : ∀ k : UnitKey, 0 < (s.units.get k).prod)
    (hrel : 0 ≤ s.relics) :
    (computeFPS s).1
      < (computeFPS { s with
          units := s.units.set key
            { s.units.get key with count := (s.units.get key).count + 1 } }).1 := by
  have cm := hcount .monkey; have cz := hcount .zebra; have cg := hcount .gorilla
  have ce := hcount .elephant; have cp := hcount .parrot
  have pm := hprod .monkey; have pz := hprod .zebra; have pg := hprod .gorilla
  have pe := hprod .elephant; have pp := hprod .parrot
  simp only [Units.get] at cm cz cg ce cp pm pz pg pe pp
  have cm' : (0 : ℚ) ≤ s.units.monkey.count := by exact_mod_cast cm
  have cz' : (0 : ℚ) ≤ s.units.zebra.count := by exact_mod_cast cz
  have cg' : (0 : ℚ) ≤ s.units.gorilla.count := by exact_mod_cast cg
  have ce' : (0 : ℚ) ≤ s.units.elephant.count := by exact_mod_cast ce
  have cp' : (0 : ℚ) ≤ s.units.parrot.count := by exact_mod_cast cp
  have Mm := milestoneMult_pos s.units.monkey.count
  have Mz := milestoneMult_pos s.units.zebra.count
  have Mg := milestoneMult_pos s.units.gorilla.count
  have Me := milestoneMult_pos s.units.elephant.count
  have Mp := milestoneMult_pos s.units.parrot.count
  have hR : (0 : ℚ) < 1 + 1 / 100 * s.relics := by positivity
  have hS : (0 : ℚ) < 1 + 1 / 10 * (s.units.parrot.count : ℚ) := by positivity
  have hsyn : (0 : ℚ) < 1 + 5 / 1000 * (s.units.zebra.count : ℚ) := by positivity
  have hgb : (0 : ℚ) < 1 + 1 / 100 * (s.units.gorilla.count : ℚ) := by positivity
  rw [computeFPS_fst, computeFPS_fst]
  cases key <;> simp only [Units.set, Units.get]
  · have hstep := count_mul_milestone_lt _ cm
    push_cast at hstep ⊢
    have h1 := mul_lt_mul_of_pos_right hstep
      (show 0 < s.units.monkey.prod * (1 + 5 / 1000 * (s.units.zebra.count : ℚ))
        * (1 + 1 / 100 * (s.units.gorilla.count : ℚ))
        * (1 + 1 / 10 * (s.units.parrot.count : ℚ)) * (1 + 1 / 100 * s.relics) by positivity)
    linarith
  · have hstep := count_mul_milestone_lt _ cz
    push_cast at hstep ⊢
    have h1 := mul_lt_mul_of_pos_right hstep
      (show 0 < s.units.zebra.prod * (1 + 1 / 100 * (s.units.gorilla.count : ℚ))
        * (1 + 1 / 10 * (s.units.parrot.count : ℚ)) * (1 + 1 / 100 * s.relics) by positivity)
    have h2 : 0 ≤ (s.units.monkey.count : ℚ) * s.units.monkey.prod
        * milestoneMult s.units.monkey.count * (5 / 1000)
        * (1 + 1 / 100 * (s.units.gorilla.count : ℚ))
        * (1 + 1 / 10 * (s.units.parrot.count : ℚ)) * (1 + 1 / 100 * s.relics) := by positivity
    linarith
  · have hstep := count_mul_milestone_lt _ cg
    push_cast at hstep ⊢
    have h1 := mul_lt_mul_of_pos_right hstep
      (show 0 < s.units.gorilla.prod
        * (1 + 1 / 10 * (s.units.parrot.count : ℚ)) * (1 + 1 / 100 * s.relics) by positivity)
    have h2 : 0 ≤ ((s.units.monkey.count : ℚ) * s.units.monkey.prod
        * milestoneMult s.units.monkey.count * (1 + 5 / 1000 * (s.units.zebra.count : ℚ))
        + (s.units.zebra.count : ℚ) * s.units.zebra.prod * milestoneMult s.units.zebra.count)
        * (1 / 100)
        * (1 + 1 / 10 * (s.units.parrot.count : ℚ)) * (1 + 1 / 100 * s.relics) := by positivity
    linarith
  · have hstep := count_mul_milestone_lt _ ce
    push_cast at hstep ⊢
    have h1 := mul_lt_mul_of_pos_right hstep
      (show 0 < s.units.elephant.prod
        * (1 + 1 / 10 * (s.units.parrot.count : ℚ)) * (1 + 1 / 100 * s.relics) by positivity)
    linarith
  · have hstep := count_mul_milestone_lt _ cp
    push_cast at hstep ⊢
    have h1 := mul_lt_mul_of_pos_right hstep
      (show 0 < s.units.parrot.prod
        * (1 + 1 / 10 * ((s.units.parrot.count : ℚ) + 1)) * (1 + 1 / 100 * s.relics) by
          positivity)
    have h2 : 0 ≤ ((s.units.monkey.count : ℚ) * s.units.monkey.prod
          * milestoneMult s.units.monkey.count * (1 + 5 / 1000 * (s.units.zebra.count : ℚ))
          * (1 + 1 / 100 * (s.units.gorilla.count : ℚ))
        + (s.units.zebra.count : ℚ) * s.units.zebra.prod * milestoneMult s.units.zebra.count
          * (1 + 1 / 100 * (s.units.gorilla.count : ℚ))
        + (s.units.gorilla.count : ℚ) * s.units.gorilla.prod
          * milestoneMult s.units.gorilla.count
        + (s.units.elephant.count : ℚ) * s.units.elephant.prod
          * milestoneMult s.units.elephant.count
        + (s.units.parrot.count : ℚ) * s.units.parrot.prod
          * milestoneMult s.units.parrot.count)
        * (1 / 10) * (1 + 1 / 100 * s.relics) := by positivity
    linarith

/-- C9 at a fresh game buying its first zebra. -/
theorem computeFPS_strictMono_count_witness :
    (computeFPS (freshState 0 0)).1
      < (computeFPS { freshState 0 0 with
          units := (freshState 0 0).units.set .zebra
            { (freshState 0 0).units.get .zebra with
              count := ((freshState 0 0).units.get .zebra).count + 1 } }).1 :=
  computeFPS_strictMono_count (freshState 0 0) .zebra
    (by intro k; cases k <;> norm_num [freshState, roster, Units.get])
    (by intro k; cases k <;> norm_num [freshState, roster, Units.get])
    (by norm_num [freshState])

/-! ## The burst test against the real-valued probability -/

theorem burstFires_iff (dt r : ℚ) :
    burstFires dt r = true ↔ (r : ℝ) < 1 - ((1 : ℝ) - 1 / 10) ^ ((dt : ℝ) / 60) := by
  unfold burstFires
  rw [decide_eq_true_iff]
  have hbase : ((1 : ℝ) - 1 / 10) = 9 / 10 := by norm_num
  rw [hbase]
  have hA0 : (0 : ℝ) < (9 / 10 : ℝ) ^ ((dt : ℝ) / 60) := Real.rpow_pos_of_pos (by norm_num) _
  by_cases hr : r < 1
  · have hB0 : (0 : ℝ) ≤ 1 - (r : ℝ) := by
      have : (r : ℝ) < 1 := by exact_mod_cast hr
      linarith
    have hN : 60 * dt.den ≠ 0 := by
      have := dt.den_pos
      omega
    have hpow : ((9 / 10 : ℝ) ^ ((dt : ℝ) / 60)) ^ (60 * dt.den) = (9 / 10 : ℝ) ^ dt.num := by
      have hmul : (dt : ℝ) * (dt.den : ℝ) = (dt.num : ℝ) := by
        exact_mod_cast Rat.mul_den_eq_num dt
      have hexp : (dt : ℝ) / 60 * ((60 * dt.den : ℕ) : ℝ) = ((dt.num : ℤ) : ℝ) := by
        push_cast
        linear_combination hmul
      rw [← Real.rpow_natCast, ← Real.rpow_mul (by norm_num), hexp, Real.rpow_intCast]
    have hcast : ((9 / 10 : ℚ) ^ dt.num < (1 - r) ^ (60 * dt.den))
        ↔ ((9 / 10 : ℝ) ^ dt.num < (1 - (r : ℝ)) ^ (60 * dt.den)) := by
      rw [← Rat.cast_lt (K := ℝ)]
      push_cast
      rfl
    constructor
    · rintro ⟨-, h⟩
      rw [hcast, ← hpow] at h
      have := (pow_lt_pow_iff_left₀ hA0.le hB0 hN).mp h
      linarith
    · intro h
      refine ⟨hr, ?_⟩
      rw [hcast, ← hpow]
      exact (pow_lt_pow_iff_left₀ hA0.le hB0 hN).mpr (by linarith)
  · constructor
    · rintro ⟨h, -⟩
      exact absurd h hr
    · intro h
      have : (1 : ℝ) ≤ r := by exact_mod_cast not_lt.mp hr
      linarith

/-! ## Loading: the economy migration -/

theorem rewriteUnit_some (key : UnitKey) (r : Option LoadedUnit) (u : LoadedUnit)
    (h : rewriteUnit key r = some u) :
    u.base = some (roster key).base ∧ u.m = some (roster key).m
      ∧ u.prod = some (roster key).prod := by
  cases r with
  | none => simp [rewriteUnit] at h
  | some v =>
    simp only [rewriteUnit, Option.some.injEq] at h
    subst h
    exact ⟨rfl, rfl, rfl⟩

/-- C10 (amended): the economy migration of `init` is idempotent, it always leaves
`econ130` set, and it leaves a state that already carries `econ130` untouched; when
the loaded state does not carry `econ130`, every unit record present after the
migration holds the `base`, `m` and `prod` of its roster row. -/
theorem migrateEconomy_spec (s : Loaded) :
    migrateEconomy (migrateEconomy s) = migrateEconomy s
      ∧ (migrateEconomy s).econ130 = true
      ∧ (s.econ130 = true → migrateEconomy s = s)
      ∧ (s.econ130 = false →
          ∀ u : LoadedUnits, (migrateEconomy s).units = some u →
            ∀ (k : UnitKey) (r : LoadedUnit), u.get k = some r →
              r.base = some (roster k).base ∧ r.m = some (roster k).m
                ∧ r.prod = some (roster k).prod) := by
  have hflag : (migrateEconomy s).econ130 = true := by
    unfold migrateEconomy
    cases h : s.econ130 <;> simp [h]
  have hkeep : ∀ t : Loaded, t.econ130 = true → migrateEconomy t = t := by
    intro t ht
    unfold migrateEconomy
    simp [ht]
  refine ⟨hkeep _ hflag, hflag, hkeep s, ?_⟩
  intro hold u hu k r hr
  unfold migrateEconomy at hu
  simp only [hold, Bool.not_false, if_true] at hu
  cases hunits : s.units with
  | none => simp [hunits] at hu
  | some v =>
    simp only [hunits, Option.map_some', Option.some.injEq] at hu
    subst hu
    cases k <;> exact rewriteUnit_some _ _ r hr

/-- C10 fails on a save that already carries `econ130`: its monkey record keeps
`base: 2` through the migration, not the roster value `1`. -/
theorem migrateEconomy_flagged_counterexample :
    ∃ (u : LoadedUnits) (r : LoadedUnit),
      (migrateEconomy flaggedSave).units = some u ∧ u.get .monkey = some r
        ∧ r.base = some 2 ∧ r.base ≠ some (roster .monkey).base := by
  refine ⟨_, _, rfl, rfl, rfl, ?_⟩
  simp only [roster]
  norm_num

/-- C10 (amended) at a save without the marker: the monkey record gets the roster
constants. -/
theorem migrateEconomy_spec_witness :
    ∃ (u : LoadedUnits) (r : LoadedUnit),
      (migrateEconomy oldSave).units = some u ∧ u.get .monkey = some r
        ∧ r.base = some 1 ∧ r.m = some (13 / 10) ∧ r.prod = some 1 :=
  ⟨_, _, rfl, rfl,
    (migrateEconomy_spec oldSave).2.2.2 rfl _ rfl .monkey _ rfl⟩

/-! ## The tick driver without bursts and caches -/

theorem foldl_burstStep_quiet (dt amt : ℚ) (rand : ℕ → ℚ) (l : List ℕ) (s : State)
    (hq : ∀ i ∈ l, burstFires dt (rand i) = false) :
    l.foldl (burstStep dt amt rand) s = s := by
  induction l generalizing s with
  | nil => rfl
  | cons i l ih =>
    rw [List.foldl_cons]
    have hi : burstFires dt (rand i) = false := hq i (List.mem_cons_self _ _)
    have hstep : burstStep dt amt rand s i = s := by
      unfold burstStep
      simp [hi]
    rw [hstep]
    exact ih s (fun j hj => hq j (List.mem_cons_of_mem _ hj))

theorem tick_quiet (s : State) (dt : ℚ) (rand : ℕ → ℚ)
    (hburst : ∀ i : ℕ, i < s.units.elephant.count.toNat → burstFires dt (rand i) = false)
    (hcache : ¬ (0 < s.units.parrot.count ∧ 300 ≤ s.parrotTimer.getD 0 + dt)) :
    (tick s dt rand).food = s.food + (computeFPS s).1 * dt
      ∧ (tick s dt rand).totalProduced = s.totalProduced + (computeFPS s).1 * dt := by
  have hfold : ∀ (amt : ℚ) (t : State),
      (List.range s.units.elephant.count.toNat).foldl (burstStep dt amt rand) t = t :=
    fun amt t => foldl_burstStep_quiet dt amt rand _ t
      (fun i hi => hburst i (List.mem_range.mp hi))
  unfold tick
  simp only [computeFPS_snd]
  by_cases he : 0 < s.units.elephant.count
  · simp only [if_pos he, hfold, if_neg hcache]
    exact ⟨trivial, trivial⟩
  · simp only [if_neg he, if_neg hcache]
    exact ⟨trivial, trivial⟩

/-! ## Loading: the zero-animal repair -/

/-- Where the repair works: for every loaded save that has a monkey record and no negative
count, the total owned after the repair step of `init` is at least 1; when the loaded
total is `0` the monkey count is set to exactly `1` and nothing else changes, and when
the loaded total is positive the state is unchanged. -/
theorem repairAnimals_spec (s : Loaded) (u : LoadedUnits) (m : LoadedUnit)
    (hu : s.units = some u) (hm : u.monkey = some m)
    (hnn : ∀ k : UnitKey, 0 ≤ ownedCount (u.get k)) :
    1 ≤ totalOwned (repairAnimals s).units
      ∧ (totalOwned s.units = 0 →
          ∃ v : LoadedUnits, repairAnimals s = { s with units := some v }
            ∧ v.monkey = some { m with count := some 1 }
            ∧ ownedCount v.monkey = 1
            ∧ ∀ k : UnitKey, k ≠ .monkey → v.get k = u.get k)
      ∧ (0 < totalOwned s.units → repairAnimals s = s) := by
  have hz := hnn .zebra
  have hg := hnn .gorilla
  have he := hnn .elephant
  have hp := hnn .parrot
  simp only [LoadedUnits.get] at hz hg he hp
  have hkeep : totalOwned s.units ≠ 0 → repairAnimals s = s := by
    intro h
    unfold repairAnimals
    simp only [if_neg h]
  have hfix : totalOwned s.units = 0 →
      repairAnimals s
        = { s with units := some { u with monkey := some { m with count := some 1 } } } := by
    intro h
    unfold repairAnimals
    simp only [hu, hm]
    rw [hu] at h
    rw [if_pos h]
  refine ⟨?_, ?_, fun hpos => hkeep (ne_of_gt hpos)⟩
  · by_cases h0 : totalOwned s.units = 0
    · rw [hfix h0]
      simp only [totalOwned, ownedCount, Option.getD_some]
      simp only [ownedCount] at hz hg he hp
      omega
    · rw [hkeep h0]
      have hm0 := hnn .monkey
      have htot : 0 ≤ totalOwned s.units := by
        rw [hu]
        simp only [LoadedUnits.get] at hm0
        simp only [totalOwned]
        omega
      omega
  · intro h0
    refine ⟨{ u with monkey := some { m with count := some 1 } }, hfix h0, rfl, rfl, ?_⟩
    intro k hk
    cases k <;> first | rfl | exact absurd rfl hk

/-- A save whose `units` object has no monkey record is left as it is by the repair. -/
theorem repairAnimals_no_monkey (s : Loaded) (u : LoadedUnits) (hu : s.units = some u)
    (hm : u.monkey = none) : repairAnimals s = s := by
  unfold repairAnimals
  simp only [hu, hm]
  split_ifs <;> rfl

/-- A save without a `units` object is left as it is by the repair. -/
theorem repairAnimals_no_units (s : Loaded) (hu : s.units = none) : repairAnimals s = s := by
  unfold repairAnimals
  simp only [hu]
  split_ifs <;> rfl

/-- C11 fails on a save that owns no animal and has no monkey record (its `units`
object holds only a zebra record with count `0`): the loaded total is `0`, the
repair is guarded by `G.state.units.monkey` and leaves the save as it is, and the
total owned after the repair step is still `0`, not at least `1`. -/
theorem repairAnimals_no_monkey_counterexample :
    totalOwned noMonkeySave.units = 0
      ∧ repairAnimals noMonkeySave = noMonkeySave
      ∧ totalOwned (repairAnimals noMonkeySave).units = 0 := by
  refine ⟨rfl, rfl, rfl⟩

/-- The repair at a save whose only record is a monkey record with count `0`. -/
theorem repairAnimals_spec_witness :
    1 ≤ totalOwned (repairAnimals zeroSave).units
      ∧ ∃ v : LoadedUnits, repairAnimals zeroSave = { zeroSave with units := some v }
          ∧ ownedCount v.monkey = 1 := by
  obtain ⟨h1, h2, -⟩ := repairAnimals_spec zeroSave _ _ rfl rfl
    (by intro k; cases k <;> decide)
  obtain ⟨v, hv, -, hc, -⟩ := h2 rfl
  exact ⟨h1, v, hv, hc⟩

/-- The total is a signed sum: on a save with one monkey and a zebra count of `-1` the
loaded total is `0`, the repair sets the monkey count to `1`, and the total is still
`0`. -/
theorem repairAnimals_negative_count :
    totalOwned negativeCountSave.units = 0
      ∧ totalOwned (repairAnimals negativeCountSave).units = 0 :=
  ⟨rfl, rfl⟩

/-! ## The price of the first milestone -/

/-- C13 (amended): from the fresh state (1 monkey, `base = 1`, `m = 1.30`) the price
of 24 more monkeys, `costOf('monkey', 1, 24, 1, 1.30)`, is the sum over
`i = 0 .. 23` of `1.30 ^ (1 + i)`, that is `1.30` times the sum of `1.30 ^ i`: the
monkey already owned shifts every exponent by one. -/
theorem costOf_first_milestone :
    (freshState 0 0).units.monkey.count = 1
      ∧ (freshState 0 0).units.monkey.base = 1
      ∧ (freshState 0 0).units.monkey.m = 13 / 10
      ∧ costOf "monkey" 1 24 1 (13 / 10) = ∑ i in Finset.range 24, (13 / 10 : ℚ) ^ (1 + i)
      ∧ costOf "monkey" 1 24 1 (13 / 10)
          = 13 / 10 * ∑ i in Finset.range 24, (13 / 10 : ℚ) ^ i := by
  have hcost : costOf "monkey" 1 24 1 (13 / 10)
      = 13 / 10 * ∑ i in Finset.range 24, (13 / 10 : ℚ) ^ i := by
    rw [geom_sum_eq (by norm_num)]
    norm_num [costOf, parseInt]
  refine ⟨rfl, rfl, rfl, ?_, hcost⟩
  rw [hcost, Finset.mul_sum]
  refine Finset.sum_congr rfl fun i _ => ?_
  rw [pow_add, pow_one]

/-- C13 fails as stated: `costOf('monkey', 1, 24, 1, 1.30)` is `1.30` times the sum
over `i = 0 .. 23` of `1.30 ^ i`, hence strictly larger than that sum. -/
theorem costOf_first_milestone_counterexample :
    ∑ i in Finset.range 24, (13 / 10 : ℚ) ^ i < costOf "monkey" 1 24 1 (13 / 10)
      ∧ costOf "monkey" 1 24 1 (13 / 10) ≠ ∑ i in Finset.range 24, (13 / 10 : ℚ) ^ i := by
  have hsum : ∑ i in Finset.range 24, (13 / 10 : ℚ) ^ i
      < costOf "monkey" 1 24 1 (13 / 10) := by
    rw [geom_sum_eq (by norm_num)]
    norm_num [costOf, parseInt]
  exact ⟨hsum, ne_of_gt hsum⟩

/-! ## Invariants: `food` and `totalProduced` -/

theorem computeFPS_nonneg (s : State)
    (hcount : ∀ k : UnitKey, 0 ≤ (s.units.get k).count)
    (hprod : ∀ k : UnitKey, 0 ≤ (s.units.get k).prod)
    (hrel : 0 ≤ s.relics) : 0 ≤ (computeFPS s).1 := by
  have cm := hcount .monkey; have cz := hcount .zebra; have cg := hcount .gorilla
  have ce := hcount .elephant; have cp := hcount .parrot
  have pm := hprod .monkey; have pz := hprod .zebra; have pg := hprod .gorilla
  have pe := hprod .elephant; have pp := hprod .parrot
  simp only [Units.get] at cm cz cg ce cp pm pz pg pe pp
  have cm' : (0 : ℚ) ≤ s.units.monkey.count := by exact_mod_cast cm
  have cz' : (0 : ℚ) ≤ s.units.zebra.count := by exact_mod_cast cz
  have cg' : (0 : ℚ) ≤ s.units.gorilla.count := by exact_mod_cast cg
  have ce' : (0 : ℚ) ≤ s.units.elephant.count := by exact_mod_cast ce
  have cp' : (0 : ℚ) ≤ s.units.parrot.count := by exact_mod_cast cp
  have Mm := milestoneMult_pos s.units.monkey.count
  have Mz := milestoneMult_pos s.units.zebra.count
  have Mg := milestoneMult_pos s.units.gorilla.count
  have Me := milestoneMult_pos s.units.elephant.count
  have Mp := milestoneMult_pos s.units.parrot.count
  rw [computeFPS_fst]
  positivity

theorem computeFPS_fst_congr (s t : State) (hu : t.units = s.units) (hr : t.relics = s.relics) :
    (computeFPS t).1 = (computeFPS s).1 := by
  rw [computeFPS_fst, computeFPS_fst, hu, hr]

theorem foldl_burstStep_ge (dt amt : ℚ) (rand : ℕ → ℚ) (hamt : 0 ≤ amt) (l : List ℕ)
    (s : State) :
    s.food ≤ (l.foldl (burstStep dt amt rand) s).food
      ∧ s.totalProduced ≤ (l.foldl (burstStep dt amt rand) s).totalProduced := by
  induction l generalizing s with
  | nil => exact ⟨le_refl _, le_refl _⟩
  | cons i l ih =>
    rw [List.foldl_cons]
    obtain ⟨h1, h2⟩ := ih (burstStep dt amt rand s i)
    have hstep : s.food ≤ (burstStep dt amt rand s i).food
        ∧ s.totalProduced ≤ (burstStep dt amt rand s i).totalProduced := by
      unfold burstStep
      split_ifs
      · exact ⟨le_add_of_nonneg_right hamt, le_add_of_nonneg_right hamt⟩
      · exact ⟨le_refl _, le_refl _⟩
    exact ⟨le_trans hstep.1 h1, le_trans hstep.2 h2⟩

theorem tick_ge (s : State) (dt : ℚ) (rand : ℕ → ℚ)
    (hcount : ∀ k : UnitKey, 0 ≤ (s.units.get k).count)
    (hprod : ∀ k : UnitKey, 0 ≤ (s.units.get k).prod)
    (hrel : 0 ≤ s.relics) (hdt : 0 ≤ dt) :
    s.food ≤ (tick s dt rand).food ∧ s.totalProduced ≤ (tick s dt rand).totalProduced := by
  have hfps := computeFPS_nonneg s hcount hprod hrel
  have hgain : 0 ≤ (computeFPS s).1 * dt := mul_nonneg hfps hdt
  have hamt : 0 ≤ s.units.elephant.prod * 10 :=
    mul_nonneg (by simpa [Units.get] using hprod .elephant) (by norm_num)
  have hpar : (0 : ℚ) ≤ s.units.parrot.count := by
    have := hcount .parrot
    simp only [Units.get] at this
    exact_mod_cast this
  have hbonus : ∀ t : State, t.units = s.units → t.relics = s.relics →
      0 ≤ (s.units.parrot.count : ℚ) * (5 / 100 * ((computeFPS t).1 * 3600)) := by
    intro t hu hr
    rw [computeFPS_fst_congr s t hu hr]
    positivity
  unfold tick
  simp only [computeFPS_snd]
  set S2 : State :=
    { s with
      food := s.food + (computeFPS s).1 * dt
      totalProduced := s.totalProduced + (computeFPS s).1 * dt
      speedMult := 1 + 1 / 10 * (s.units.parrot.count : ℚ) } with hS2
  have hcases : ∀ T : State, T.units = s.units → T.relics = s.relics →
      S2.food ≤ T.food → S2.totalProduced ≤ T.totalProduced →
      s.food ≤ (if 0 < T.units.parrot.count ∧ (300 : ℚ) ≤ T.parrotTimer.getD 0 + dt then
          ({ (computeFPS { T with parrotTimer := some (T.parrotTimer.getD 0 + dt) }).2 with
            food := (computeFPS { T with parrotTimer := some (T.parrotTimer.getD 0 + dt) }).2.food
              + (T.units.parrot.count : ℚ) * (5 / 100
                * ((computeFPS { T with parrotTimer := some (T.parrotTimer.getD 0 + dt) }).1
                  * 3600))
            totalProduced :=
              (computeFPS { T with parrotTimer := some (T.parrotTimer.getD 0 + dt) }).2.totalProduced
              + (T.units.parrot.count : ℚ) * (5 / 100
                * ((computeFPS { T with parrotTimer := some (T.parrotTimer.getD 0 + dt) }).1
                  * 3600))
            parrotTimer := some 0 } : State)
        else { T with parrotTimer := some (T.parrotTimer.getD 0 + dt) }).food
      ∧ s.totalProduced ≤
        (if 0 < T.units.parrot.count ∧ (300 : ℚ) ≤ T.parrotTimer.getD 0 + dt then
          ({ (computeFPS { T with parrotTimer := some (T.parrotTimer.getD 0 + dt) }).2 with
            food := (computeFPS { T with parrotTimer := some (T.parrotTimer.getD 0 + dt) }).2.food
              + (T.units.parrot.count : ℚ) * (5 / 100
                * ((computeFPS { T with parrotTimer := some (T.parrotTimer.getD 0 + dt) }).1
                  * 3600))
            totalProduced :=
              (computeFPS { T with parrotTimer := some (T.parrotTimer.getD 0 + dt) }).2.totalProduced
              + (T.units.parrot.count : ℚ) * (5 / 100
                * ((computeFPS { T with parrotTimer := some (T.parrotTimer.getD 0 + dt) }).1
                  * 3600))
            parrotTimer := some 0 } : State)
        else { T with parrotTimer := some (T.parrotTimer.getD 0 + dt) }).totalProduced := by
    intro T hU hR hf ht
    have hf' : s.food ≤ T.food := le_trans (le_add_of_nonneg_right hgain) hf
    have ht' : s.totalProduced ≤ T.totalProduced := le_trans (le_add_of_nonneg_right hgain) ht
    split_ifs with hc
    · have hb := hbonus { T with parrotTimer := some (T.parrotTimer.getD 0 + dt) } hU hR
      rw [← hU] at hb
      exact ⟨le_trans hf' (le_add_of_nonneg_right hb), le_trans ht' (le_add_of_nonneg_right hb)⟩
    · exact ⟨hf', ht'⟩
  by_cases he : 0 < s.units.elephant.count
  · simp only [if_pos he]
    obtain ⟨hU, -, hR, -, -⟩ := foldl_burstStep_frame dt (s.units.elephant.prod * 10) rand
      (List.range s.units.elephant.count.toNat) S2
    obtain ⟨hf, ht⟩ := foldl_burstStep_ge dt (s.units.elephant.prod * 10) rand hamt
      (List.range s.units.elephant.count.toNat) S2
    exact hcases _ hU hR hf ht
  · simp only [if_neg he]
    exact hcases S2 rfl rfl (le_refl _) (le_refl _)

theorem buy_food_totalProduced (s : State) (key : UnitKey) (mode : String) (ok : Bool)
    (t : State) (h : buy s key mode = some (ok, t)) :
    (0 ≤ s.food → 0 ≤ t.food) ∧ t.totalProduced = s.totalProduced := by
  unfold buy at h
  cases hq : resolveQty s key mode with
  | none => simp [hq] at h
  | some qty =>
    simp only [hq] at h
    split_ifs at h with hrej
    · simp only [Option.some.injEq, Prod.mk.injEq] at h
      obtain ⟨-, rfl⟩ := h
      exact ⟨fun h0 => h0, rfl⟩
    · simp only [Option.some.injEq, Prod.mk.injEq] at h
      obtain ⟨-, rfl⟩ := h
      refine ⟨fun _ => ?_, rfl⟩
      have hge := not_lt.mp (not_or.mp hrej).2
      exact sub_nonneg.mpr hge

theorem buy_eq_none_iff (s : State) (key : UnitKey) (mode : String) :
    buy s key mode = none
      ↔ mode = "max" ∧ (s.units.get key).m = 1 ∧ (s.units.get key).base = 0 ∧ 0 ≤ s.food := by
  rw [← resolveQty_eq_none_iff]
  unfold buy
  cases hq : resolveQty s key mode with
  | none => simp
  | some qty =>
    simp only []
    split_ifs <;> simp

theorem purchaseUpgrade_food_totalProduced (s : State) (id : String) :
    (0 ≤ s.food → 0 ≤ (purchaseUpgrade s id).food)
      ∧ (purchaseUpgrade s id).totalProduced = s.totalProduced := by
  unfold purchaseUpgrade
  by_cases h0 : id = ""
  · rw [if_pos h0]
    exact ⟨fun h => h, rfl⟩
  · rw [if_neg h0]
    cases upgradeCost id with
    | none => exact ⟨fun h => h, rfl⟩
    | some cost =>
      simp only []
      by_cases hle : cost ≤ s.food
      · rw [if_pos hle]
        exact ⟨fun _ => sub_nonneg.mpr hle, rfl⟩
      · rw [if_neg hle]
        exact ⟨fun h => h, rfl⟩

theorem applyOffline_ge (s : State) (now prevTime : ℚ)
    (hcount : ∀ k : UnitKey, 0 ≤ (s.units.get k).count)
    (hprod : ∀ k : UnitKey, 0 ≤ (s.units.get k).prod)
    (hrel : 0 ≤ s.relics) (hcap : 0 ≤ capSeconds s) :
    s.food ≤ (applyOffline s now prevTime).2.food
      ∧ s.totalProduced ≤ (applyOffline s now prevTime).2.totalProduced := by
  have hfps := computeFPS_nonneg s hcount hprod hrel
  unfold capSeconds at hcap
  unfold applyOffline
  split_ifs with h0
  · exact ⟨le_refl _, le_refl _⟩
  · have hel : (0 : ℚ) ≤ ((max 0 ⌊(now - prevTime) / 1000⌋ : ℤ) : ℚ) := by
      exact_mod_cast le_max_left (0 : ℤ) _
    have hcapped : 0 ≤ min ((max 0 ⌊(now - prevTime) / 1000⌋ : ℤ) : ℚ)
        ((s.offlineCapMins + 30 * (s.units.elephant.count : ℚ)) * 60) :=
      le_min hel hcap
    have hgain := mul_nonneg hfps hcapped
    exact ⟨le_add_of_nonneg_right hgain, le_add_of_nonneg_right hgain⟩

theorem doPrestige_food (s : State) (nowSave nowTick : ℚ) (g : ℤ) (t : State)
    (h : doPrestige s nowSave nowTick = some (g, t)) : t.food = 0 := by
  unfold doPrestige at h
  cases hg : prestigeGain s with
  | none => simp [hg] at h
  | some gain =>
    simp only [hg, Option.some.injEq, Prod.mk.injEq] at h
    obtain ⟨-, rfl⟩ := h
    rfl

/-- C12 (amended): starting from a state with `food ≥ 0`, non-negative counts, prods
and relics and a non-negative offline cap `capSeconds`, each of `buy` (any key and mode), the upgrade
purchase (any id), `tick` with `dt ≥ 0` (any random draws), `applyOffline` and
`doPrestige` leaves `food ≥ 0`.  The model of `buy` leaves the finite numbers only for
mode `'max'` on a record with `m = 1` and `base = 0`, that of `doPrestige` only for
`totalProduced < 0`. -/
theorem food_nonneg_invariant (s : State) (hfood : 0 ≤ s.food)
    (hcount : ∀ k : UnitKey, 0 ≤ (s.units.get k).count)
    (hprod : ∀ k : UnitKey, 0 ≤ (s.units.get k).prod)
    (hrel : 0 ≤ s.relics) (hcap : 0 ≤ capSeconds s) :
    (∀ (key : UnitKey) (mode : String),
        (buy s key mode = none
          ↔ mode = "max" ∧ (s.units.get key).m = 1 ∧ (s.units.get key).base = 0)
        ∧ ∀ (ok : Bool) (t : State), buy s key mode = some (ok, t) → 0 ≤ t.food)
      ∧ (∀ id : String, 0 ≤ (purchaseUpgrade s id).food)
      ∧ (∀ (dt : ℚ) (rand : ℕ → ℚ), 0 ≤ dt → 0 ≤ (tick s dt rand).food)
      ∧ (∀ now prevTime : ℚ, 0 ≤ (applyOffline s now prevTime).2.food)
      ∧ (∀ nowSave nowTick : ℚ,
          (doPrestige s nowSave nowTick = none ↔ s.totalProduced < 0)
          ∧ ∀ (g : ℤ) (t : State), doPrestige s nowSave nowTick = some (g, t) → 0 ≤ t.food) := by
  refine ⟨?_, ?_, ?_, ?_, ?_⟩
  · intro key mode
    constructor
    · rw [buy_eq_none_iff]
      constructor
      · rintro ⟨h1, h2, h3, -⟩
        exact ⟨h1, h2, h3⟩
      · rintro ⟨h1, h2, h3⟩
        exact ⟨h1, h2, h3, hfood⟩
    · intro ok t h
      exact (buy_food_totalProduced s key mode ok t h).1 hfood
  · intro id
    exact (purchaseUpgrade_food_totalProduced s id).1 hfood
  · intro dt rand hdt
    exact le_trans hfood (tick_ge s dt rand hcount hprod hrel hdt).1
  · intro now prevTime
    exact le_trans hfood (applyOffline_ge s now prevTime hcount hprod hrel hcap).1
  · intro nowSave nowTick
    refine ⟨doPrestige_eq_none_iff s nowSave nowTick, fun g t h => ?_⟩
    rw [doPrestige_food s nowSave nowTick g t h]

/-- C12 fails for `applyOffline` when the offline cap is negative: a fresh game
(`food = 0`, one monkey, no relic) with `offlineCapMins = -60`, resumed one second
after the last save, is granted `1 * min(1, -3600)` and ends with `food = -3600`. -/
theorem food_negative_cap_counterexample :
    0 ≤ negativeCapState.food
      ∧ (∀ k : UnitKey, 0 ≤ (negativeCapState.units.get k).count)
      ∧ (∀ k : UnitKey, 0 ≤ (negativeCapState.units.get k).prod)
      ∧ 0 ≤ negativeCapState.relics
      ∧ capSeconds negativeCapState = -3600
      ∧ (applyOffline negativeCapState 2000 1000).2.food = -3600
      ∧ (applyOffline negativeCapState 2000 1000).2.food < 0 := by
  have hfl : ⌊((2000 : ℚ) - 1000) / 1000⌋ = 1 := by
    have h : ((2000 : ℚ) - 1000) / 1000 = ((1 : ℤ) : ℚ) := by norm_num
    rw [h, Int.floor_intCast]
  have hfood : (applyOffline negativeCapState 2000 1000).2.food = -3600 := by
    norm_num [applyOffline, computeFPS, milestoneMult, negativeCapState, freshState, roster,
      hfl]
  refine ⟨le_refl _, ?_, ?_, le_refl _, ?_, hfood, ?_⟩
  · intro k
    cases k <;> norm_num [negativeCapState, freshState, roster, Units.get]
  · intro k
    cases k <;> norm_num [negativeCapState, freshState, roster, Units.get]
  · norm_num [capSeconds, negativeCapState, freshState, roster]
  · rw [hfood]
    norm_num

/-- C12 (amended) at a fresh game with ten food: buying a monkey, buying an upgrade,
a tick of one second and a resume after one hour all leave `food ≥ 0`. -/
theorem food_nonneg_invariant_witness :
    (∀ (ok : Bool) (t : State), buy tenFoodState .monkey "1" = some (ok, t) → 0 ≤ t.food)
      ∧ 0 ≤ (purchaseUpgrade tenFoodState "upg_monk_x2").food
      ∧ 0 ≤ (tick tenFoodState 1 (fun _ => 0)).food
      ∧ 0 ≤ (applyOffline tenFoodState 3601000 1000).2.food := by
  obtain ⟨hbuy, hupg, htick, hoff, -⟩ := food_nonneg_invariant tenFoodState
    (by norm_num [tenFoodState, freshState])
    (by intro k; cases k <;> norm_num [tenFoodState, freshState, roster, Units.get])
    (by intro k; cases k <;> norm_num [tenFoodState, freshState, roster, Units.get])
    (by norm_num [tenFoodState, freshState])
    (by norm_num [capSeconds, tenFoodState, freshState, roster])
  exact ⟨(hbuy .monkey "1").2, hupg "upg_monk_x2", htick 1 (fun _ => 0) (by norm_num),
    hoff 3601000 1000⟩

/-- C14 (amended): `buy` and the upgrade purchase leave `totalProduced` unchanged
whether they succeed or fail; for every state with non-negative counts, prods and
relics, `tick` with `dt ≥ 0` (any random draws) never decreases it, and, when the
offline cap `capSeconds` is non-negative, neither does `applyOffline`.  The model of
`buy` leaves the finite numbers only for mode `'max'` on a record with `m = 1` and
`base = 0` when `food ≥ 0`. -/
theorem totalProduced_never_decremented (s : State)
    (hcount : ∀ k : UnitKey, 0 ≤ (s.units.get k).count)
    (hprod : ∀ k : UnitKey, 0 ≤ (s.units.get k).prod)
    (hrel : 0 ≤ s.relics) :
    (∀ (key : UnitKey) (mode : String),
        (buy s key mode = none
          ↔ mode = "max" ∧ (s.units.get key).m = 1 ∧ (s.units.get key).base = 0 ∧ 0 ≤ s.food)
        ∧ ∀ (ok : Bool) (t : State), buy s key mode = some (ok, t) →
            t.totalProduced = s.totalProduced)
      ∧ (∀ id : String, (purchaseUpgrade s id).totalProduced = s.totalProduced)
      ∧ (∀ (dt : ℚ) (rand : ℕ → ℚ), 0 ≤ dt →
          s.totalProduced ≤ (tick s dt rand).totalProduced)
      ∧ (0 ≤ capSeconds s → ∀ now prevTime : ℚ,
          s.totalProduced ≤ (applyOffline s now prevTime).2.totalProduced) := by
  refine ⟨?_, ?_, ?_, ?_⟩
  · intro key mode
    exact ⟨buy_eq_none_iff s key mode,
      fun ok t h => (buy_food_totalProduced s key mode ok t h).2⟩
  · intro id
    exact (purchaseUpgrade_food_totalProduced s id).2
  · intro dt rand hdt
    exact (tick_ge s dt rand hcount hprod hrel hdt).2
  · intro hcap now prevTime
    exact (applyOffline_ge s now prevTime hcount hprod hrel hcap).2

/-- C14 fails for `applyOffline` when the offline cap is negative: a fresh game with
`offlineCapMins = -60`, resumed one second after the last save, has its
`totalProduced` lowered from `0` to `-3600`. -/
theorem totalProduced_negative_cap_counterexample :
    (∀ k : UnitKey, 0 ≤ (negativeCapState.units.get k).count)
      ∧ (∀ k : UnitKey, 0 ≤ (negativeCapState.units.get k).prod)
      ∧ 0 ≤ negativeCapState.relics
      ∧ negativeCapState.totalProduced = 0
      ∧ (applyOffline negativeCapState 2000 1000).2.totalProduced = -3600
      ∧ (applyOffline negativeCapState 2000 1000).2.totalProduced
          < negativeCapState.totalProduced := by
  have hfl : ⌊((2000 : ℚ) - 1000) / 1000⌋ = 1 := by
    have h : ((2000 : ℚ) - 1000) / 1000 = ((1 : ℤ) : ℚ) := by norm_num
    rw [h, Int.floor_intCast]
  have htot : (applyOffline negativeCapState 2000 1000).2.totalProduced = -3600 := by
    norm_num [applyOffline, computeFPS, milestoneMult, negativeCapState, freshState, roster,
      hfl]
  refine ⟨?_, ?_, le_refl _, rfl, htot, ?_⟩
  · intro k
    cases k <;> norm_num [negativeCapState, freshState, roster, Units.get]
  · intro k
    cases k <;> norm_num [negativeCapState, freshState, roster, Units.get]
  · rw [htot]
    norm_num [negativeCapState, freshState]

/-- C14 (amended) at a game that has produced `4e12` food: a rejected purchase, an
upgrade purchase, a tick and a resume after one hour do not lower `totalProduced`. -/
theorem totalProduced_never_decremented_witness :
    (∀ (ok : Bool) (t : State), buy richState .zebra "1" = some (ok, t) →
        t.totalProduced = richState.totalProduced)
      ∧ (purchaseUpgrade richState "upg_monk_x2").totalProduced = richState.totalProduced
      ∧ richState.totalProduced ≤ (tick richState 1 (fun _ => 0)).totalProduced
      ∧ richState.totalProduced ≤ (applyOffline richState 3601000 1000).2.totalProduced := by
  obtain ⟨hbuy, hupg, htick, hoff⟩ := totalProduced_never_decremented richState
    (by intro k; cases k <;> norm_num [richState, freshState, roster, Units.get])
    (by intro k; cases k <;> norm_num [richState, freshState, roster, Units.get])
    (by norm_num [richState, freshState])
  exact ⟨(hbuy .zebra "1").2, hupg "upg_monk_x2", htick 1 (fun _ => 0) (by norm_num),
    hoff (by norm_num [capSeconds, richState, freshState, roster]) 3601000 1000⟩

end AKI
